import Mathlib

/-!
# MNIST IDX loader (`MNISTLoader.cpp`) and CSV reader (`DatasetLoader.cpp`):
shallow embedding and specification check

Modelling conventions.

* A byte (`uint8_t`, `unsigned char`) is a `Fin 256`.
* An open `ifstream` in the good state is the list of bytes that remain to be
  read; `f.read(buf, k)` succeeds when at least `k` bytes remain and otherwise
  puts the stream in the failed state, which every caller answers by throwing.
* The file system is a function from paths to `Option (List Byte)`; `none` is a
  path that cannot be opened.
* `size_t` is 64 bits wide: every `size_t` operation is reduced modulo `2^64`.
  `uint32_t` operations are reduced modulo `2^32`.
* `float` is embedded in `ℚ`: `float(pixel)` is exact for every byte and the
  division by `255.0f` is the exact quotient (the rounding of the 32-bit
  quotient is not modelled).
* A thrown exception is the `Except` error; its payload is the `what()` text.
* Reading a vector out of bounds (undefined behaviour in C++) is `none`: a
  result that holds a `none` stands for an execution with undefined behaviour,
  not for a normal return.
* The two `resize` calls of `load_mnist` throw `length_error` above
  `max_size()` and `bad_alloc` when the allocator refuses the request; the
  allocator is a parameter `alloc`, like the file system. Other allocations
  (strings, `push_back` in the CSV reader) are taken to succeed.
* `print_image_grid` returns the values it reads in place of the formatted text.
* Text is a list of characters. `fixed << setprecision(6)` rounds the exact
  value to six decimals; because the normalised pixel is the exact quotient
  here, the sixth decimal of its text can differ by one unit from the text of
  the 32-bit quotient, the integer part cannot.
-/

namespace MNISTLoader

/-- One octet, the C++ `uint8_t` / `unsigned char`. -/
abbrev Byte := Fin 256

/-- Number of values of `size_t` (64-bit target). -/
def SIZE_MOD : Nat := 2 ^ 64

/-- Number of values of `uint32_t`. -/
def U32_MOD : Nat := 2 ^ 32

/-- The exception classes thrown in the two programs, with their `what()` text. -/
inductive Exception where
  | runtime_error (what : String)
  | out_of_range (what : String)
  | invalid_argument (what : String)
  | length_error (what : String)
  | bad_alloc (what : String)
  deriving DecidableEq, Repr

/-- The struct `MnistDataset`. -/
structure MnistDataset where
  images : List ℚ
  labels : List Byte
  num_images : Nat
  rows : Nat
  cols : Nat
  deriving DecidableEq

/-- The member `image_size()`: `rows * cols` in `size_t`. -/
def MnistDataset.image_size (ds : MnistDataset) : Nat :=
  (ds.rows * ds.cols) % SIZE_MOD

/-- The member `image_ptr(i)`, as the element offset from `images.data()`:
`i * image_size()` in `size_t`. No bounds check is made. -/
def MnistDataset.image_ptr (ds : MnistDataset) (i : Nat) : Nat :=
  (i * ds.image_size) % SIZE_MOD

/-- The function `read_u32_be`: read 4 bytes, throw when the read fails, else
combine them most significant byte first. Returns the value and the stream
after the read. -/
def read_u32_be (f : List Byte) : Except Exception (Nat × List Byte) :=
  match f with
  | b0 :: b1 :: b2 :: b3 :: rest =>
    .ok (((b0.val <<< 24) ||| (b1.val <<< 16) ||| (b2.val <<< 8) ||| b3.val) % U32_MOD, rest)
  | _ => .error (.runtime_error "Unexpected EOF while reading u32")

/-- The pixel conversion `normalize ? (float(pixel) / 255.0f) : float(pixel)`. -/
def convert_pixel (normalize : Bool) (pixel : Byte) : ℚ :=
  if normalize then (pixel.val : ℚ) / 255 else (pixel.val : ℚ)

/-- The pixel loop of `load_mnist`, `for (size_t i = 0; i < total; ++i)`, entered
at index `i` with `remaining = total - i` iterations to go: read one byte, throw
on a failed read, store the converted value at `images[i]`. -/
def read_image_data (normalize : Bool) :
    (remaining : Nat) → (i : Nat) → (fi : List Byte) → (images : List ℚ) →
      Except Exception (List ℚ)
  | 0, _, _, images => .ok images
  | remaining + 1, i, fi, images =>
    match fi with
    | [] => .error (.runtime_error "Unexpected EOF while reading image data")
    | pixel :: fi1 =>
      read_image_data normalize remaining (i + 1) fi1 (images.set i (convert_pixel normalize pixel))

/-- The label loop of `load_mnist`, `for (uint32_t i = 0; i < n; ++i)`, entered
at index `i` with `remaining = n - i` iterations to go. -/
def read_label_data :
    (remaining : Nat) → (i : Nat) → (fl : List Byte) → (labels : List Byte) →
      Except Exception (List Byte)
  | 0, _, _, labels => .ok labels
  | remaining + 1, i, fl, labels =>
    match fl with
    | [] => .error (.runtime_error "Unexpected EOF while reading label data")
    | lab :: fl1 => read_label_data remaining (i + 1) fl1 (labels.set i lab)

/-- The value of `vector<float>::max_size()`: `PTRDIFF_MAX / sizeof(float)`. -/
def FLOAT_VEC_MAX : Nat := 2 ^ 61 - 1

/-- The value of `vector<uint8_t>::max_size()`: `PTRDIFF_MAX`. -/
def BYTE_VEC_MAX : Nat := 2 ^ 63 - 1

/-- The library call `v.resize(count)` on an empty vector whose elements take
`elem_size` bytes: nothing happens for `count = 0`; `length_error` is thrown
when `count` exceeds `max_size()`; else `elem_size * count` bytes are requested
and `bad_alloc` is thrown when the request fails. `alloc` tells which requests
the allocator grants. -/
def resize_empty (alloc : Nat → Bool) (elem_size max_size count : Nat) :
    Except Exception Unit :=
  if count = 0 then .ok ()
  else if count > max_size then .error (.length_error "vector::_M_default_append")
  else if alloc (elem_size * count) = false then .error (.bad_alloc "std::bad_alloc")
  else .ok ()

/-- An allocator that grants every request. -/
def enough_memory : Nat → Bool := fun _ => true

/-- The images block of `load_mnist` (IDX3): open, header, resize, pixel loop.
Returns the dataset with `images`, `num_images`, `rows`, `cols` filled in. -/
def load_images (alloc : Nat → Bool) (fs : String → Option (List Byte))
    (images_path : String) (normalize : Bool) : Except Exception MnistDataset :=
  match fs images_path with
  | none => .error (.runtime_error ("Could not open images file: " ++ images_path))
  | some fi0 =>
    match read_u32_be fi0 with
    | .error e => .error e
    | .ok (magic, fi1) =>
      if magic ≠ 2051 then
        .error (.runtime_error
          ("Images file magic mismatch: expected 2051, got " ++ toString magic))
      else
        match read_u32_be fi1 with
        | .error e => .error e
        | .ok (n, fi2) =>
          match read_u32_be fi2 with
          | .error e => .error e
          | .ok (rows, fi3) =>
            match read_u32_be fi3 with
            | .error e => .error e
            | .ok (cols, fi4) =>
              let total := (((n % SIZE_MOD) * rows) % SIZE_MOD * cols) % SIZE_MOD
              match resize_empty alloc 4 FLOAT_VEC_MAX total with
              | .error e => .error e
              | .ok _ =>
                match read_image_data normalize total 0 fi4 (List.replicate total 0) with
                | .error e => .error e
                | .ok images =>
                  .ok { images := images, labels := [], num_images := n,
                        rows := rows, cols := cols }

/-- The labels block of `load_mnist` (IDX1): open, header, count check, resize,
label loop, run on the dataset `ds` left by the images block. -/
def load_labels (alloc : Nat → Bool) (fs : String → Option (List Byte))
    (labels_path : String) (ds : MnistDataset) : Except Exception MnistDataset :=
  match fs labels_path with
  | none => .error (.runtime_error ("Could not open labels file: " ++ labels_path))
  | some fl0 =>
    match read_u32_be fl0 with
    | .error e => .error e
    | .ok (magic, fl1) =>
      if magic ≠ 2049 then
        .error (.runtime_error
          ("Labels file magic mismatch: expected 2049, got " ++ toString magic))
      else
        match read_u32_be fl1 with
        | .error e => .error e
        | .ok (n, fl2) =>
          if n ≠ ds.num_images then
            .error (.runtime_error
              ("Images count (" ++ toString ds.num_images ++ ") != labels count ("
                ++ toString n ++ ")"))
          else
            match resize_empty alloc 1 BYTE_VEC_MAX n with
            | .error e => .error e
            | .ok _ =>
              match read_label_data n 0 fl2 (List.replicate n 0) with
              | .error e => .error e
              | .ok labels => .ok { ds with labels := labels }

/-- The function `load_mnist`: the images block, then the labels block. `alloc`
is the allocator the two `resize` calls meet. -/
def load_mnist (alloc : Nat → Bool) (fs : String → Option (List Byte))
    (images_path labels_path : String) (normalize : Bool) :
    Except Exception MnistDataset :=
  match load_images alloc fs images_path normalize with
  | .error e => .error e
  | .ok ds => load_labels alloc fs labels_path ds

/-- What `print_image_grid` sends to `cout`, before number formatting: the index,
the label read at `labels[idx]` and the grid of values read at
`img[r * cols + c]`. -/
structure GridOutput where
  idx : Nat
  label : Option Byte
  grid : List (List (Option ℚ))
  deriving DecidableEq

/-- The function `print_image_grid`: the bounds check on `idx`, then one row of
`cols` reads for each of the `rows` rows. -/
def print_image_grid (ds : MnistDataset) (idx : Nat) : Except Exception GridOutput :=
  if idx ≥ ds.num_images then
    .error (.out_of_range "Image index out of range")
  else
    let img := ds.image_ptr idx
    .ok { idx := idx
          label := ds.labels[idx]?
          grid := (List.range ds.rows).map fun r =>
            (List.range ds.cols).map fun c =>
              ds.images[img + (r * ds.cols + c) % SIZE_MOD]? }

/-- Big-endian value of four bytes, as the format documents it. -/
def be32 (b0 b1 b2 b3 : Byte) : Nat :=
  b0.val * 2 ^ 24 + b1.val * 2 ^ 16 + b2.val * 2 ^ 8 + b3.val

/-- The `k`-th 32-bit header field of a stream (field 0 is the format tag). -/
def header_field (s : List Byte) (k : Nat) : Option Nat :=
  match read_u32_be (s.drop (4 * k)) with
  | .ok (v, _) => some v
  | .error _ => none

/-! ## Concrete inputs used below -/

/-- An IDX3 header declaring 4 images of 2^31 x 2^31 pixels and no body, with an
IDX1 file of 4 labels. The `size_t` product `4 * 2^31 * 2^31` wraps to 0. -/
def overflow_fs : String → Option (List Byte) := fun path =>
  if path = "images" then some [0, 0, 8, 3, 0, 0, 0, 4, 128, 0, 0, 0, 128, 0, 0, 0]
  else if path = "labels" then some [0, 0, 8, 1, 0, 0, 0, 4, 0, 1, 2, 3]
  else none

/-- Images declaring count 5 (of 1 x 1 pixels) with an empty body; labels
declaring count 4. -/
def mismatch_short_fs : String → Option (List Byte) := fun path =>
  if path = "images" then some [0, 0, 8, 3, 0, 0, 0, 5, 0, 0, 0, 1, 0, 0, 0, 1]
  else if path = "labels" then some [0, 0, 8, 1, 0, 0, 0, 4, 0, 1, 2, 3]
  else none

/-- Images declaring count 5 (of 1 x 1 pixels) with the full 5-byte body; labels
declaring count 4. -/
def mismatch_fs : String → Option (List Byte) := fun path =>
  if path = "images" then
    some [0, 0, 8, 3, 0, 0, 0, 5, 0, 0, 0, 1, 0, 0, 0, 1, 10, 20, 30, 40, 50]
  else if path = "labels" then some [0, 0, 8, 1, 0, 0, 0, 4, 0, 1, 2, 3]
  else none

/-- The pixel bytes of `small_img`. -/
def small_img_body : List Byte := [255, 51, 0, 102]

/-- A complete image file: 2 images of 1 x 2 pixels. -/
def small_img : List Byte :=
  [0, 0, 8, 3, 0, 0, 0, 2, 0, 0, 0, 1, 0, 0, 0, 2] ++ small_img_body

/-- A complete archive: `small_img` with the labels 7 and 200. -/
def small_fs : String → Option (List Byte) := fun path =>
  if path = "images" then some small_img
  else if path = "labels" then some [0, 0, 8, 1, 0, 0, 0, 2, 7, 200]
  else none

/-- The dataset `load_mnist` builds from `small_fs` without normalisation. -/
def small_ds : MnistDataset :=
  { images := [255, 51, 0, 102], labels := [7, 200], num_images := 2, rows := 1, cols := 2 }

/-- An image file whose tag is 2049 in place of 2051, and no label file. -/
def bad_tag_fs : String → Option (List Byte) := fun path =>
  if path = "images" then some [0, 0, 8, 1, 0, 0, 0, 1] else none

/-- A 28 x 28, count = 1 image file whose body has 783 bytes, one short. -/
def truncated_img : List Byte :=
  [0, 0, 8, 3, 0, 0, 0, 1, 0, 0, 0, 28, 0, 0, 0, 28] ++ List.replicate 783 0

/-- The archive made of `truncated_img` and a one-label file. -/
def truncated_fs : String → Option (List Byte) := fun path =>
  if path = "images" then some truncated_img
  else if path = "labels" then some [0, 0, 8, 1, 0, 0, 0, 1, 5]
  else none

/-- An allocator that grants a request of at most `cap` bytes. -/
def memory_limit (cap : Nat) : Nat → Bool := fun bytes => decide (bytes ≤ cap)

/-- The dataset `load_mnist` returns for `overflow_fs`: four images of
2^31 x 2^31 pixels declared, an empty pixel buffer. -/
def overflow_ds : MnistDataset :=
  { images := [], labels := [0, 1, 2, 3], num_images := 4, rows := 2 ^ 31, cols := 2 ^ 31 }

/-- An image header declaring 1 image of 2^31 x 2^31 pixels, with an empty body,
and a one-label file. The product 2^62 fits `size_t` and exceeds
`vector<float>::max_size()`. -/
def oversize_fs : String → Option (List Byte) := fun path =>
  if path = "images" then some [0, 0, 8, 3, 0, 0, 0, 1, 128, 0, 0, 0, 128, 0, 0, 0]
  else if path = "labels" then some [0, 0, 8, 1, 0, 0, 0, 1, 5]
  else none

/-- Count 1, 1 x 3 pixels, and a 2-byte body. -/
def truncated_small_fs : String → Option (List Byte) := fun path =>
  if path = "images" then some [0, 0, 8, 3, 0, 0, 0, 1, 0, 0, 0, 1, 0, 0, 0, 3, 9, 9]
  else if path = "labels" then some [0, 0, 8, 1, 0, 0, 0, 1, 5]
  else none

/-- A valid image header (count 1, 1 x 1) with an empty body, and a label file
tagged 2051. -/
def label_tag_short_fs : String → Option (List Byte) := fun path =>
  if path = "images" then some [0, 0, 8, 3, 0, 0, 0, 1, 0, 0, 0, 1, 0, 0, 0, 1]
  else if path = "labels" then some [0, 0, 8, 3, 0, 0, 0, 1, 5]
  else none

/-- A complete one-pixel image file, and a label file tagged 2051. -/
def label_tag_fs : String → Option (List Byte) := fun path =>
  if path = "images" then some [0, 0, 8, 3, 0, 0, 0, 1, 0, 0, 0, 1, 0, 0, 0, 1, 77]
  else if path = "labels" then some [0, 0, 8, 3, 0, 0, 0, 1, 5]
  else none

/-- The image file `small_img` with a label file declaring 2 labels and holding
one. -/
def label_short_fs : String → Option (List Byte) := fun path =>
  if path = "images" then some small_img
  else if path = "labels" then some [0, 0, 8, 1, 0, 0, 0, 2, 7]
  else none

/-! ## `DatasetLoader.cpp`: the CSV reader

Text is a list of characters. A text `istream` is the list of characters that
remain to be read. The counters `n` and `current_cell_index` are `size_t`.
-/

/-- The global `num_classes`. -/
def num_classes : Nat := 10

/-- The struct `Dataset` of the CSV reader. The field `dim` is `none` when the
value stored in it is indeterminate (computed from an uninitialised local). -/
structure Dataset where
  labels : List (List Byte)
  images : List (List Nat)
  dim : Option Nat
  n : Nat
  deriving DecidableEq

/-- The function `to_one_hot`: `if (label >= 0 && label < labels.size())
labels[label] = 1;`. -/
def to_one_hot (labels : List Byte) (label : Int) : List Byte :=
  if label ≥ 0 ∧ label.toNat < labels.length then labels.set label.toNat 1 else labels

/-- The library call `std::getline(stream, out, delim)` on a text stream: it
fails when nothing remains; otherwise it yields the characters before the first
`delim` (or all of them when there is none) and leaves the stream after that
`delim`. -/
def getline (delim : Char) (stream : List Char) : Option (List Char × List Char) :=
  match stream with
  | [] => none
  | _ :: _ =>
    some (stream.takeWhile (fun c => c ≠ delim), (stream.dropWhile (fun c => c ≠ delim)).drop 1)

/-- The successive values a loop `while (getline(stream, out, delim))` sees,
until `getline` fails. -/
def getlines (delim : Char) : List Char → List (List Char)
  | [] => []
  | c :: s =>
    if c = delim then [] :: getlines delim s
    else
      match getlines delim s with
      | [] => [[c]]
      | l :: ls => (c :: l) :: ls

/-- The predicate `isspace` of the C locale. -/
def isspace (c : Char) : Bool :=
  c = ' ' || c = '\t' || c = '\n' || c = '\x0b' || c = '\x0c' || c = '\r'

/-- The library call `std::stoi(cell)`: skip leading white space, take an
optional sign and the longest run of decimal digits; throw `invalid_argument`
when there is no digit and `out_of_range` when the value is not an `int`; what
follows the digits is ignored. -/
def stoi (cell : List Char) : Except Exception Int :=
  let s1 := cell.dropWhile isspace
  let negative := s1.head? = some '-'
  let s2 := if s1.head? = some '-' ∨ s1.head? = some '+' then s1.drop 1 else s1
  let digits := s2.takeWhile Char.isDigit
  let v : Nat := digits.foldl (fun acc c => 10 * acc + (c.toNat - 48)) 0
  if digits = [] then .error (.invalid_argument "stoi")
  else if negative then
    if v ≤ 2147483648 then .ok (-(v : Int)) else .error (.out_of_range "stoi")
  else
    if v ≤ 2147483647 then .ok (v : Int) else .error (.out_of_range "stoi")

/-- The `int` to `uint32_t` conversion made by `pixels.push_back(value)`. -/
def to_u32 (value : Int) : Nat := (value % (U32_MOD : Int)).toNat

/-- The cell loop of `load_csv`, `while (getline(ss, cell, ','))`, on the cells
still to come: the first column goes through `to_one_hot` and is pushed on
`ReadMatrix.labels`, every other column is pushed on `pixels` as `uint32_t`.
Returns `current_cell_index`, `pixels` and `ReadMatrix.labels`. -/
def read_cells : (cells : List (List Char)) → (current_cell_index : Nat) →
    (labels : List Byte) → (pixels : List Nat) → (out_labels : List (List Byte)) →
      Except Exception (Nat × List Nat × List (List Byte))
  | [], current_cell_index, _, pixels, out_labels =>
    .ok (current_cell_index, pixels, out_labels)
  | cell :: rest, current_cell_index, labels, pixels, out_labels =>
    match stoi cell with
    | .error e => .error e
    | .ok value =>
      if current_cell_index = 0 then
        read_cells rest ((current_cell_index + 1) % SIZE_MOD) (to_one_hot labels value)
          pixels (out_labels ++ [to_one_hot labels value])
      else
        read_cells rest ((current_cell_index + 1) % SIZE_MOD) labels
          (pixels ++ [to_u32 value]) out_labels

/-- The line loop of `load_csv`, `while (getline(file, line))`, on the lines
still to come, with the locals `n` and `dim` (`none` while uninitialised) and
the two vectors of `ReadMatrix`; at the end `n` and `dim - 1` are stored. -/
def read_lines : (lines : List (List Char)) → (n : Nat) → (dim : Option Nat) →
    (out_labels : List (List Byte)) → (out_images : List (List Nat)) →
      Except Exception Dataset
  | [], n, dim, out_labels, out_images =>
    .ok { labels := out_labels, images := out_images,
          dim := dim.map (fun d => (d + SIZE_MOD - 1) % SIZE_MOD), n := n }
  | line :: rest, n, dim, out_labels, out_images =>
    match read_cells (getlines ',' line) 0 (List.replicate num_classes 0) [] out_labels with
    | .error e => .error e
    | .ok (current_cell_index, pixels, out_labels1) =>
      read_lines rest ((n + 1) % SIZE_MOD) (if n = 0 then some current_cell_index else dim)
        out_labels1 (out_images ++ [pixels])

/-- The function `load_csv`: an unopenable file gives the empty `Dataset`;
otherwise the first line is skipped and every further line is read. -/
def load_csv (fs : String → Option (List Char)) (filename : String) :
    Except Exception Dataset :=
  match fs filename with
  | none => .ok { labels := [], images := [], dim := some 0, n := 0 }
  | some file => read_lines ((getlines '\n' file).drop 1) 0 none [] []

/-- The vector of `size` entries that is 1 at index `L` and 0 elsewhere (all 0
when `L` is not an index). -/
def one_hot (size : Nat) (L : Int) : List Byte :=
  (List.range size).map fun (k : Nat) => if (k : Int) = L then (1 : Byte) else 0

/-- The label vector `load_csv` stores for a line: none for a line without
cells, else the one-hot vector of its first cell. -/
def row_label (line : List Char) : Option (List Byte) :=
  match getlines ',' line with
  | [] => none
  | cell :: _ =>
    match stoi cell with
    | .ok L => some (one_hot num_classes L)
    | .error _ => none

/-- A CSV file with a header, an empty line and one data line. -/
def blank_line_csv : String → Option (List Char) := fun path =>
  if path = "train.csv" then some "label,p0\n\n1,5\n".toList else none

/-- The values `stoi` gives for a run of cells, or the first exception. -/
def stoi_all : List (List Char) → Except Exception (List Int)
  | [] => .ok []
  | cell :: rest =>
    match stoi cell with
    | .error e => .error e
    | .ok value =>
      match stoi_all rest with
      | .error e => .error e
      | .ok values => .ok (value :: values)

/-- What one pass of the line loop adds for a line: the label vector pushed on
`ReadMatrix.labels` (none for a line without cells) and the `pixels` pushed on
`ReadMatrix.images`; or the first exception. -/
def parse_row (line : List Char) : Except Exception (Option (List Byte) × List Nat) :=
  match getlines ',' line with
  | [] => .ok (none, [])
  | cell :: rest =>
    match stoi cell with
    | .error e => .error e
    | .ok value =>
      match stoi_all rest with
      | .error e => .error e
      | .ok values =>
        .ok (some (to_one_hot (List.replicate num_classes 0) value), values.map to_u32)

/-- The rows `parse_row` gives for a run of lines, or the first exception. -/
def parse_rows : List (List Char) → Except Exception (List (Option (List Byte) × List Nat))
  | [] => .ok []
  | line :: rest =>
    match parse_row line with
    | .error e => .error e
    | .ok row =>
      match parse_rows rest with
      | .error e => .error e
      | .ok rows => .ok (row :: rows)

/-! ## `MNISTLoader.cpp`: the CSV exporter -/

/-- The text `fo << i` writes for an unsigned integer: its decimal digits. -/
def put_nat (n : Nat) : List Char := Nat.toDigits 10 n

/-- The value `fixed << setprecision(6)` prints for `v`, in millionths: the
magnitude of `v` rounded to the nearest millionth, ties to even. -/
def round6 (v : ℚ) : Nat :=
  let s := |v| * 1000000
  let q := ⌊s⌋.toNat
  if 1 / 2 < s - q ∨ (s - q = 1 / 2 ∧ q % 2 = 1) then q + 1 else q

/-- The text `fo << fixed << setprecision(6) << v` writes for a float `v`: sign,
integer part, point, six decimals. -/
def format_fixed6 (v : ℚ) : List Char :=
  (if v < 0 then ['-'] else [])
    ++ put_nat (round6 v / 1000000) ++ '.'
    :: (List.replicate (6 - (put_nat (round6 v % 1000000)).length) '0'
        ++ put_nat (round6 v % 1000000))

/-- The header line of `export_csv`: `label`, then `,p<i>` for every
`i < image_size()`, then the end of line. -/
def export_header (ds : MnistDataset) : List Char :=
  "label".toList
    ++ (List.range ds.image_size).flatMap (fun i => ",p".toList ++ put_nat i) ++ ['\n']

/-- The reads `img[i]`, `i < image_size()`, that `export_csv` makes for image
`idx`, with `img = image_ptr(idx)`. -/
def export_row_reads (ds : MnistDataset) (idx : Nat) : List (Option ℚ) :=
  (List.range ds.image_size).map fun i => ds.images[ds.image_ptr idx + i]?

/-- The cells `',' << img[i]` of one row; `none` when a read was out of
bounds. -/
def put_cells : List (Option ℚ) → Option (List Char)
  | [] => some []
  | none :: _ => none
  | some v :: rest =>
    match put_cells rest with
    | none => none
    | some text => some (',' :: format_fixed6 v ++ text)

/-- One pass of the row loop of `export_csv`: `int(labels[idx])`, the cells,
the end of line; `none` when a read was out of bounds. -/
def export_row (ds : MnistDataset) (idx : Nat) : Option (List Char) :=
  match ds.labels[idx]? with
  | none => none
  | some label =>
    match put_cells (export_row_reads ds idx) with
    | none => none
    | some cells => some (put_nat label.val ++ cells ++ ['\n'])

/-- The row loop of `export_csv`, `for (size_t idx = 0; idx < N; ++idx)`, entered
at `idx` with `remaining = N - idx` rows to go. -/
def export_rows (ds : MnistDataset) : (remaining : Nat) → (idx : Nat) → Option (List Char)
  | 0, _ => some []
  | remaining + 1, idx =>
    match export_row ds idx with
    | none => none
    | some row =>
      match export_rows ds remaining (idx + 1) with
      | none => none
      | some rest => some (row ++ rest)

/-- The function `export_csv`, as the text it writes to `out_path`; `writable`
tells which paths can be opened for writing. The result is `.ok none` when a
read was out of bounds (undefined behaviour in C++). -/
def export_csv (writable : String → Bool) (ds : MnistDataset) (out_path : String)
    (max_rows : Nat) : Except Exception (Option (List Char)) :=
  if writable out_path = false then
    .error (.runtime_error ("Could not open output CSV: " ++ out_path))
  else
    let N := if max_rows ≠ 0 then min ds.num_images max_rows else ds.num_images
    match export_rows ds N 0 with
    | none => .ok none
    | some rows => .ok (some (export_header ds ++ rows))

/-- The invariants of the data model, for a dataset held in memory: the buffer
holds `num_images * rows * cols` values, there is one label per image, and the
sizes are `size_t` values. -/
def MnistDataset.well_formed (ds : MnistDataset) : Prop :=
  ds.images.length = ds.num_images * ds.rows * ds.cols
    ∧ ds.labels.length = ds.num_images
    ∧ ds.images.length < SIZE_MOD
    ∧ ds.rows * ds.cols < SIZE_MOD
    ∧ ds.num_images < SIZE_MOD

/-- One line of delimited text: the fields separated by commas, then the end
of line. -/
def csv_line (fields : List (List Char)) : List Char :=
  [','].intercalate fields ++ ['\n']

/-- Delimited text: the lines one after the other. -/
def csv_text (lines : List (List (List Char))) : List Char :=
  (lines.map csv_line).flatten

/-- The `rows * cols` values of image `idx` in a well-formed dataset. -/
def row_values (ds : MnistDataset) (idx : Nat) : List ℚ :=
  (ds.images.drop (idx * ds.rows * ds.cols)).take (ds.rows * ds.cols)

/-- The fields of the header line: `label`, `p0`, ..., `p(rows*cols - 1)`. -/
def header_fields (ds : MnistDataset) : List (List Char) :=
  "label".toList :: (List.range (ds.rows * ds.cols)).map fun i => 'p' :: put_nat i

/-- The fields of the data line of image `idx`: the decimal label, then the
formatted values of the image. -/
def row_fields (ds : MnistDataset) (idx : Nat) : List (List Char) :=
  put_nat (ds.labels.getD idx 0).val :: (row_values ds idx).map format_fixed6

/-- The number of data rows `export_csv` writes:
`max_rows ? min(num_images, max_rows) : num_images`. -/
def export_count (ds : MnistDataset) (max_rows : Nat) : Nat :=
  if max_rows ≠ 0 then min ds.num_images max_rows else ds.num_images

/-- The integer part of the six-decimal text of a value in `[0, 1]`: 1 from
`0.9999995` on, else 0. -/
def unit_part (v : ℚ) : Nat := if 1999999 ≤ 2000000 * v then 1 else 0

/-- The dataset `load_mnist` builds from `small_fs` with normalisation. -/
def small_ds_norm : MnistDataset :=
  { images := small_img_body.map (convert_pixel true), labels := [7, 200],
    num_images := 2, rows := 1, cols := 2 }

/-- The text `export_csv` writes for `small_ds_norm`. -/
def small_csv_text : List Char :=
  "label,p0,p1\n7,1.000000,0.200000\n200,0.000000,0.400000\n".toList

/-- A file system holding `small_csv_text` at `out.csv`. -/
def small_csv_fs : String → Option (List Char) := fun path =>
  if path = "out.csv" then some small_csv_text else none

/-! ## The byte-order reader -/

theorem shift_or_eq_be32 (b0 b1 b2 b3 : Byte) :
    ((b0.val <<< 24) ||| (b1.val <<< 16) ||| (b2.val <<< 8) ||| b3.val) = be32 b0 b1 b2 b3 := by
  have h0 := b0.isLt
  have h1 := b1.isLt
  have h2 := b2.isLt
  have h3 := b3.isLt
  simp only [Nat.shiftLeft_eq, be32]
  have e1 : b0.val * 2 ^ 24 ||| b1.val * 2 ^ 16 = 2 ^ 16 * (b0.val * 2 ^ 8 + b1.val) := by
    have := Nat.mul_add_lt_is_or (show b1.val * 2 ^ 16 < 2 ^ 24 by omega) b0.val
    rw [show b0.val * 2 ^ 24 = 2 ^ 24 * b0.val by ring, ← this]
    ring
  have e2 : 2 ^ 16 * (b0.val * 2 ^ 8 + b1.val) ||| b2.val * 2 ^ 8
      = 2 ^ 8 * (b0.val * 2 ^ 16 + b1.val * 2 ^ 8 + b2.val) := by
    have := Nat.mul_add_lt_is_or (show b2.val * 2 ^ 8 < 2 ^ 16 by omega)
      (b0.val * 2 ^ 8 + b1.val)
    rw [← this]
    ring
  have e3 : 2 ^ 8 * (b0.val * 2 ^ 16 + b1.val * 2 ^ 8 + b2.val) ||| b3.val
      = b0.val * 2 ^ 24 + b1.val * 2 ^ 16 + b2.val * 2 ^ 8 + b3.val := by
    have := Nat.mul_add_lt_is_or (show b3.val < 2 ^ 8 by omega)
      (b0.val * 2 ^ 16 + b1.val * 2 ^ 8 + b2.val)
    rw [← this]
    ring
  rw [e1, e2, e3]

theorem be32_lt (b0 b1 b2 b3 : Byte) : be32 b0 b1 b2 b3 < 2 ^ 32 := by
  have h0 := b0.isLt
  have h1 := b1.isLt
  have h2 := b2.isLt
  have h3 := b3.isLt
  unfold be32
  omega

theorem read_u32_be_cons4 (b0 b1 b2 b3 : Byte) (rest : List Byte) :
    read_u32_be (b0 :: b1 :: b2 :: b3 :: rest) = .ok (be32 b0 b1 b2 b3, rest) := by
  simp only [read_u32_be, shift_or_eq_be32, U32_MOD]
  rw [Nat.mod_eq_of_lt (be32_lt b0 b1 b2 b3)]

theorem read_u32_be_short (f : List Byte) (h : f.length < 4) :
    read_u32_be f = .error (.runtime_error "Unexpected EOF while reading u32") := by
  match f, h with
  | [], _ => rfl
  | [_], _ => rfl
  | [_, _], _ => rfl
  | [_, _, _], _ => rfl
  | _ :: _ :: _ :: _ :: _, h => simp at h; omega

/-- C3: on a stream with at least four remaining bytes `b0 b1 b2 b3`,
`read_u32_be` returns `b0*2^24 + b1*2^16 + b2*2^8 + b3`, a value below `2^32`,
and the stream it leaves is the old one advanced by exactly four bytes. -/
theorem read_u32_be_value (b0 b1 b2 b3 : Byte) (rest : List Byte) :
    read_u32_be (b0 :: b1 :: b2 :: b3 :: rest)
        = .ok (b0.val * 2 ^ 24 + b1.val * 2 ^ 16 + b2.val * 2 ^ 8 + b3.val, rest)
      ∧ b0.val * 2 ^ 24 + b1.val * 2 ^ 16 + b2.val * 2 ^ 8 + b3.val < 2 ^ 32
      ∧ rest = (b0 :: b1 :: b2 :: b3 :: rest).drop 4
      ∧ rest.length + 4 = (b0 :: b1 :: b2 :: b3 :: rest).length := by
  refine ⟨read_u32_be_cons4 b0 b1 b2 b3 rest, be32_lt b0 b1 b2 b3, rfl, by simp⟩

/-- C4: `read_u32_be` throws the unexpected-end-of-stream error exactly when
fewer than four bytes remain, and it returns a value exactly when at least four
remain; so a short stream never yields an integer. -/
theorem read_u32_be_eof_iff (f : List Byte) :
    (read_u32_be f = .error (.runtime_error "Unexpected EOF while reading u32")
        ↔ f.length < 4)
      ∧ ((∃ v rest, read_u32_be f = .ok (v, rest)) ↔ 4 ≤ f.length) := by
  by_cases h : f.length < 4
  · have e := read_u32_be_short f h
    refine ⟨⟨fun _ => h, fun _ => e⟩, ⟨?_, fun h4 => absurd h4 (by omega)⟩⟩
    rintro ⟨v, rest, hv⟩
    rw [e] at hv
    cases hv
  · match f, h with
    | b0 :: b1 :: b2 :: b3 :: rest, h =>
      have e := read_u32_be_cons4 b0 b1 b2 b3 rest
      refine ⟨⟨fun he => ?_, fun h4 => absurd h4 h⟩, ⟨fun _ => by simp, fun _ => ⟨_, _, e⟩⟩⟩
      rw [e] at he
      cases he
    | [], h => simp at h
    | [_], h => simp at h
    | [_, _], h => simp at h
    | [_, _, _], h => simp at h

/-! ## Header fields and the sequential reads -/

theorem read_u32_be_at (f : List Byte) (k v : Nat) (h : header_field f k = some v) :
    read_u32_be (f.drop (4 * k)) = .ok (v, f.drop (4 * k + 4)) := by
  unfold header_field at h
  match hd : f.drop (4 * k) with
  | [] => rw [hd] at h; simp [read_u32_be] at h
  | [_] => rw [hd] at h; simp [read_u32_be] at h
  | [_, _] => rw [hd] at h; simp [read_u32_be] at h
  | [_, _, _] => rw [hd] at h; simp [read_u32_be] at h
  | b0 :: b1 :: b2 :: b3 :: rest =>
    rw [hd, read_u32_be_cons4] at h
    simp at h
    subst h
    rw [read_u32_be_cons4, ← List.drop_drop, hd]
    rfl

theorem read_u32_be_at_none (f : List Byte) (k : Nat) (h : header_field f k = none) :
    read_u32_be (f.drop (4 * k)) = .error (.runtime_error "Unexpected EOF while reading u32") := by
  unfold header_field at h
  match hd : f.drop (4 * k) with
  | [] => rfl
  | [_] => rfl
  | [_, _] => rfl
  | [_, _, _] => rfl
  | b0 :: b1 :: b2 :: b3 :: rest =>
    rw [hd, read_u32_be_cons4] at h
    simp at h

theorem header_field_bound (f : List Byte) (k v : Nat) (h : header_field f k = some v) :
    v < 2 ^ 32 ∧ 4 * k + 4 ≤ f.length := by
  unfold header_field at h
  have hlen : (f.drop (4 * k)).length = f.length - 4 * k := by simp
  match hd : f.drop (4 * k), hlen with
  | [], _ => rw [hd] at h; simp [read_u32_be] at h
  | [_], _ => rw [hd] at h; simp [read_u32_be] at h
  | [_, _], _ => rw [hd] at h; simp [read_u32_be] at h
  | [_, _, _], _ => rw [hd] at h; simp [read_u32_be] at h
  | b0 :: b1 :: b2 :: b3 :: rest, hlen =>
    rw [hd, read_u32_be_cons4] at h
    simp at h
    subst h
    refine ⟨be32_lt _ _ _ _, ?_⟩
    simp at hlen
    omega

theorem header_field_none_iff (f : List Byte) (k : Nat) :
    header_field f k = none ↔ f.length < 4 * k + 4 := by
  constructor
  · intro h
    by_contra hc
    unfold header_field at h
    have hlen : (f.drop (4 * k)).length = f.length - 4 * k := by simp
    match hd : f.drop (4 * k), hlen with
    | [], hlen => simp at hlen; omega
    | [_], hlen => simp at hlen; omega
    | [_, _], hlen => simp at hlen; omega
    | [_, _, _], hlen => simp at hlen; omega
    | b0 :: b1 :: b2 :: b3 :: rest, hlen =>
      rw [hd, read_u32_be_cons4] at h
      simp at h
  · intro h
    cases hv : header_field f k with
    | none => rfl
    | some v => have := (header_field_bound f k v hv).2; omega

theorem total_eq (n r c : Nat) :
    (((n % SIZE_MOD) * r) % SIZE_MOD * c) % SIZE_MOD = (n * r * c) % SIZE_MOD := by
  simp [Nat.mul_mod, Nat.mod_mod]

/-! ## The two read loops -/

theorem take_set_self {α : Type} (l : List α) (i : Nat) (v : α) :
    (l.set i v).take i = l.take i := by
  induction l generalizing i with
  | nil => simp
  | cons a l ih =>
    cases i with
    | zero => simp
    | succ i => simp [ih]

theorem set_take_succ {α : Type} (l : List α) (i : Nat) (v : α) (h : i < l.length) :
    (l.set i v).take (i + 1) = l.take i ++ [v] := by
  rw [List.take_succ, take_set_self]
  simp [List.getElem?_set, h]

theorem read_image_data_ok (nz : Bool) :
    ∀ (k i : Nat) (fi : List Byte) (images : List ℚ),
      k ≤ fi.length → i + k ≤ images.length →
      read_image_data nz k i fi images
        = .ok (images.take i ++ (fi.take k).map (convert_pixel nz) ++ images.drop (i + k)) := by
  intro k
  induction k with
  | zero => intro i fi images _ _; simp [read_image_data]
  | succ k ih =>
    intro i fi images hk hi
    match fi, hk with
    | pixel :: fi1, hk =>
      simp only [read_image_data]
      rw [ih (i + 1) fi1 _ (by simpa using hk) (by simp; omega)]
      rw [set_take_succ _ _ _ (by omega), List.drop_set_of_lt _ _ (by omega)]
      simp [Nat.add_assoc, Nat.add_comm 1 k]

theorem read_image_data_short (nz : Bool) :
    ∀ (k i : Nat) (fi : List Byte) (images : List ℚ),
      fi.length < k →
      read_image_data nz k i fi images
        = .error (.runtime_error "Unexpected EOF while reading image data") := by
  intro k
  induction k with
  | zero => intro i fi images h; omega
  | succ k ih =>
    intro i fi images hk
    match fi, hk with
    | [], _ => rfl
    | pixel :: fi1, hk =>
      simp only [read_image_data]
      exact ih _ _ _ (by simpa using hk)

theorem read_label_data_ok :
    ∀ (k i : Nat) (fl : List Byte) (labels : List Byte),
      k ≤ fl.length → i + k ≤ labels.length →
      read_label_data k i fl labels
        = .ok (labels.take i ++ fl.take k ++ labels.drop (i + k)) := by
  intro k
  induction k with
  | zero => intro i fl labels _ _; simp [read_label_data]
  | succ k ih =>
    intro i fl labels hk hi
    match fl, hk with
    | lab :: fl1, hk =>
      simp only [read_label_data]
      rw [ih (i + 1) fl1 _ (by simpa using hk) (by simp; omega)]
      rw [set_take_succ _ _ _ (by omega), List.drop_set_of_lt _ _ (by omega)]
      simp [Nat.add_assoc, Nat.add_comm 1 k]

theorem read_label_data_short :
    ∀ (k i : Nat) (fl : List Byte) (labels : List Byte),
      fl.length < k →
      read_label_data k i fl labels
        = .error (.runtime_error "Unexpected EOF while reading label data") := by
  intro k
  induction k with
  | zero => intro i fl labels h; omega
  | succ k ih =>
    intro i fl labels hk
    match fl, hk with
    | [], _ => rfl
    | lab :: fl1, hk =>
      simp only [read_label_data]
      exact ih _ _ _ (by simpa using hk)

/-- The whole pixel loop, from index 0 on the freshly resized buffer. -/
theorem read_image_data_full (nz : Bool) (total : Nat) (fi : List Byte) :
    read_image_data nz total 0 fi (List.replicate total 0)
      = if total ≤ fi.length then .ok ((fi.take total).map (convert_pixel nz))
        else .error (.runtime_error "Unexpected EOF while reading image data") := by
  by_cases h : total ≤ fi.length
  · rw [read_image_data_ok nz total 0 fi _ h (by simp), if_pos h]
    simp
  · rw [read_image_data_short nz total 0 fi _ (by omega), if_neg h]

/-- The whole label loop, from index 0 on the freshly resized buffer. -/
theorem read_label_data_full (n : Nat) (fl : List Byte) :
    read_label_data n 0 fl (List.replicate n 0)
      = if n ≤ fl.length then .ok (fl.take n)
        else .error (.runtime_error "Unexpected EOF while reading label data") := by
  by_cases h : n ≤ fl.length
  · rw [read_label_data_ok n 0 fl _ h (by simp), if_pos h]
    simp
  · rw [read_label_data_short n 0 fl _ (by omega), if_neg h]

/-! ## The two blocks of `load_mnist` in closed form -/

theorem load_images_bad_tag (alloc : Nat → Bool)
    (fs : String → Option (List Byte)) (ip : String) (nz : Bool)
    (img : List Byte) (t : Nat) (h : fs ip = some img) (h0 : header_field img 0 = some t)
    (ht : t ≠ 2051) :
    load_images alloc fs ip nz = .error (.runtime_error
      ("Images file magic mismatch: expected 2051, got " ++ toString t)) := by
  have r0 := read_u32_be_at img 0 t h0
  simp only [Nat.mul_zero, List.drop_zero] at r0
  simp only [load_images, h, r0]
  simp [ht]

/-- A `resize` that succeeds asks for fewer than `2^64` elements. -/
theorem resize_empty_ok_lt (alloc : Nat → Bool) (elem_size max_size count : Nat)
    (hmax : max_size < SIZE_MOD) (h : resize_empty alloc elem_size max_size count = .ok ()) :
    count < SIZE_MOD := by
  unfold resize_empty at h
  by_cases h0 : count = 0
  · subst h0
    decide
  · rw [if_neg h0] at h
    by_cases h1 : count > max_size
    · rw [if_pos h1] at h
      cases h
    · omega

theorem resize_empty_enough (elem_size max_size count : Nat) (h : count ≤ max_size) :
    resize_empty enough_memory elem_size max_size count = .ok () := by
  unfold resize_empty
  by_cases h0 : count = 0
  · rw [if_pos h0]
  · rw [if_neg h0, if_neg (by omega)]
    rfl

/-- When `images.resize(k)` succeeds, `k` has not wrapped. -/
theorem resize_images_mod (alloc : Nat → Bool) (k : Nat)
    (h : resize_empty alloc 4 FLOAT_VEC_MAX k = .ok ()) :
    k % SIZE_MOD = k ∧ resize_empty alloc 4 FLOAT_VEC_MAX (k % SIZE_MOD) = .ok () := by
  have hk := resize_empty_ok_lt alloc 4 FLOAT_VEC_MAX k (by decide) h
  rw [Nat.mod_eq_of_lt hk]
  exact ⟨rfl, h⟩

/-- The images block after a valid header, in closed form. -/
theorem load_images_closed (alloc : Nat → Bool) (fs : String → Option (List Byte))
    (ip : String) (nz : Bool)
    (img : List Byte) (n r c : Nat) (h : fs ip = some img)
    (h0 : header_field img 0 = some 2051) (h1 : header_field img 1 = some n)
    (h2 : header_field img 2 = some r) (h3 : header_field img 3 = some c) :
    load_images alloc fs ip nz =
      match resize_empty alloc 4 FLOAT_VEC_MAX ((n * r * c) % SIZE_MOD) with
      | .error e => .error e
      | .ok _ =>
        if (n * r * c) % SIZE_MOD ≤ (img.drop 16).length then
          .ok { images := ((img.drop 16).take ((n * r * c) % SIZE_MOD)).map (convert_pixel nz),
                labels := [], num_images := n, rows := r, cols := c }
        else .error (.runtime_error "Unexpected EOF while reading image data") := by
  have r0 := read_u32_be_at img 0 _ h0
  have r1 := read_u32_be_at img 1 _ h1
  have r2 := read_u32_be_at img 2 _ h2
  have r3 := read_u32_be_at img 3 _ h3
  simp only [Nat.mul_zero, List.drop_zero, Nat.zero_add, Nat.mul_one, Nat.reduceMul,
    Nat.reduceAdd] at r0 r1 r2 r3
  simp only [load_images, h, r0, r1, r2, r3, total_eq, read_image_data_full]
  cases resize_empty alloc 4 FLOAT_VEC_MAX ((n * r * c) % SIZE_MOD) with
  | error e => simp
  | ok u =>
    by_cases hle : (n * r * c) % SIZE_MOD ≤ (img.drop 16).length
    · rw [if_pos hle, if_pos hle]
      simp
    · rw [if_neg hle, if_neg hle]
      simp

/-- The images block after a valid header when `images.resize` succeeds. -/
theorem load_images_header (alloc : Nat → Bool) (fs : String → Option (List Byte))
    (ip : String) (nz : Bool)
    (img : List Byte) (n r c : Nat) (h : fs ip = some img)
    (h0 : header_field img 0 = some 2051) (h1 : header_field img 1 = some n)
    (h2 : header_field img 2 = some r) (h3 : header_field img 3 = some c)
    (hres : resize_empty alloc 4 FLOAT_VEC_MAX ((n * r * c) % SIZE_MOD) = .ok ()) :
    load_images alloc fs ip nz =
      if (n * r * c) % SIZE_MOD ≤ (img.drop 16).length then
        .ok { images := ((img.drop 16).take ((n * r * c) % SIZE_MOD)).map (convert_pixel nz),
              labels := [], num_images := n, rows := r, cols := c }
      else .error (.runtime_error "Unexpected EOF while reading image data") := by
  rw [load_images_closed alloc fs ip nz img n r c h h0 h1 h2 h3, hres]

/-- The images block after a valid header when `images.resize` throws. -/
theorem load_images_resize_error (alloc : Nat → Bool) (fs : String → Option (List Byte))
    (ip : String) (nz : Bool)
    (img : List Byte) (n r c : Nat) (e : Exception) (h : fs ip = some img)
    (h0 : header_field img 0 = some 2051) (h1 : header_field img 1 = some n)
    (h2 : header_field img 2 = some r) (h3 : header_field img 3 = some c)
    (hres : resize_empty alloc 4 FLOAT_VEC_MAX ((n * r * c) % SIZE_MOD) = .error e) :
    load_images alloc fs ip nz = .error e := by
  rw [load_images_closed alloc fs ip nz img n r c h h0 h1 h2 h3, hres]

theorem load_labels_bad_tag (alloc : Nat → Bool) (fs : String → Option (List Byte))
    (lp : String)
    (ds : MnistDataset) (lbl : List Byte) (t : Nat) (h : fs lp = some lbl)
    (h0 : header_field lbl 0 = some t) (ht : t ≠ 2049) :
    load_labels alloc fs lp ds = .error (.runtime_error
      ("Labels file magic mismatch: expected 2049, got " ++ toString t)) := by
  have r0 := read_u32_be_at lbl 0 t h0
  simp only [Nat.mul_zero, List.drop_zero] at r0
  simp only [load_labels, h, r0]
  simp [ht]

/-- The labels block after a valid header, in closed form. -/
theorem load_labels_closed (alloc : Nat → Bool) (fs : String → Option (List Byte))
    (lp : String)
    (ds : MnistDataset) (lbl : List Byte) (n : Nat) (h : fs lp = some lbl)
    (h0 : header_field lbl 0 = some 2049) (h1 : header_field lbl 1 = some n) :
    load_labels alloc fs lp ds =
      if n ≠ ds.num_images then
        .error (.runtime_error
          ("Images count (" ++ toString ds.num_images ++ ") != labels count ("
            ++ toString n ++ ")"))
      else
        match resize_empty alloc 1 BYTE_VEC_MAX n with
        | .error e => .error e
        | .ok _ =>
          if n ≤ (lbl.drop 8).length then
            .ok { ds with labels := (lbl.drop 8).take n }
          else .error (.runtime_error "Unexpected EOF while reading label data") := by
  have r0 := read_u32_be_at lbl 0 _ h0
  have r1 := read_u32_be_at lbl 1 _ h1
  simp only [Nat.mul_zero, List.drop_zero, Nat.zero_add, Nat.mul_one, Nat.reduceAdd] at r0 r1
  simp only [load_labels, h, r0, r1, read_label_data_full]
  by_cases hn : n = ds.num_images
  · rw [if_neg (not_not.mpr hn), if_neg (not_not.mpr hn)]
    cases resize_empty alloc 1 BYTE_VEC_MAX n with
    | error e => simp
    | ok u =>
      by_cases hle : n ≤ (lbl.drop 8).length
      · rw [if_pos hle, if_pos hle]
        simp
      · rw [if_neg hle, if_neg hle]
        simp
  · rw [if_pos hn, if_pos hn]
    simp

/-- The labels block after a valid header when `labels.resize`, if reached,
succeeds. -/
theorem load_labels_header (alloc : Nat → Bool) (fs : String → Option (List Byte))
    (lp : String)
    (ds : MnistDataset) (lbl : List Byte) (n : Nat) (h : fs lp = some lbl)
    (h0 : header_field lbl 0 = some 2049) (h1 : header_field lbl 1 = some n)
    (gres : n = ds.num_images → resize_empty alloc 1 BYTE_VEC_MAX n = .ok ()) :
    load_labels alloc fs lp ds =
      if n ≠ ds.num_images then
        .error (.runtime_error
          ("Images count (" ++ toString ds.num_images ++ ") != labels count ("
            ++ toString n ++ ")"))
      else if n ≤ (lbl.drop 8).length then
        .ok { ds with labels := (lbl.drop 8).take n }
      else .error (.runtime_error "Unexpected EOF while reading label data") := by
  rw [load_labels_closed alloc fs lp ds lbl n h h0 h1]
  by_cases hn : n = ds.num_images
  · rw [if_neg (not_not.mpr hn), if_neg (not_not.mpr hn), gres hn]
  · rw [if_pos hn, if_pos hn]

theorem load_images_ok_inv (alloc : Nat → Bool) (fs : String → Option (List Byte))
    (ip : String) (nz : Bool)
    (ds : MnistDataset) (h : load_images alloc fs ip nz = .ok ds) :
    ∃ img n r c, fs ip = some img ∧ header_field img 0 = some 2051
      ∧ header_field img 1 = some n ∧ header_field img 2 = some r
      ∧ header_field img 3 = some c
      ∧ (n * r * c) % SIZE_MOD ≤ (img.drop 16).length
      ∧ ds = { images := ((img.drop 16).take ((n * r * c) % SIZE_MOD)).map (convert_pixel nz),
               labels := [], num_images := n, rows := r, cols := c } := by
  cases hfs : fs ip with
  | none => simp [load_images, hfs] at h
  | some img =>
    cases h0 : header_field img 0 with
    | none =>
      have r0 := read_u32_be_at_none img 0 h0
      simp only [Nat.mul_zero, List.drop_zero] at r0
      simp [load_images, hfs, r0] at h
    | some t =>
      by_cases ht : t = 2051
      · subst ht
        have r0 := read_u32_be_at img 0 _ h0
        simp only [Nat.mul_zero, List.drop_zero, Nat.zero_add] at r0
        cases h1 : header_field img 1 with
        | none =>
          have r1 := read_u32_be_at_none img 1 h1
          simp only [Nat.mul_one] at r1
          simp [load_images, hfs, r0, r1] at h
        | some n =>
          have r1 := read_u32_be_at img 1 _ h1
          simp only [Nat.mul_one, Nat.reduceAdd] at r1
          cases h2 : header_field img 2 with
          | none =>
            have r2 := read_u32_be_at_none img 2 h2
            simp only [Nat.reduceMul] at r2
            simp [load_images, hfs, r0, r1, r2] at h
          | some r =>
            have r2 := read_u32_be_at img 2 _ h2
            simp only [Nat.reduceMul, Nat.reduceAdd] at r2
            cases h3 : header_field img 3 with
            | none =>
              have r3 := read_u32_be_at_none img 3 h3
              simp only [Nat.reduceMul] at r3
              simp [load_images, hfs, r0, r1, r2, r3] at h
            | some c =>
              cases hres : resize_empty alloc 4 FLOAT_VEC_MAX ((n * r * c) % SIZE_MOD) with
              | error e0 =>
                rw [load_images_resize_error alloc fs ip nz img n r c e0 hfs h0 h1 h2 h3 hres]
                  at h
                cases h
              | ok u =>
                have e := load_images_header alloc fs ip nz img n r c hfs h0 h1 h2 h3 hres
                rw [h] at e
                by_cases hle : (n * r * c) % SIZE_MOD ≤ (img.drop 16).length
                · rw [if_pos hle] at e
                  exact ⟨img, n, r, c, rfl, h0, h1, h2, h3, hle, by injection e⟩
                · rw [if_neg hle] at e
                  cases e
      · rw [load_images_bad_tag alloc fs ip nz img t hfs h0 ht] at h
        cases h

theorem load_labels_ok_inv (alloc : Nat → Bool) (fs : String → Option (List Byte))
    (lp : String)
    (ds0 ds : MnistDataset) (h : load_labels alloc fs lp ds0 = .ok ds) :
    ∃ lbl, fs lp = some lbl ∧ header_field lbl 0 = some 2049
      ∧ header_field lbl 1 = some ds0.num_images
      ∧ ds0.num_images ≤ (lbl.drop 8).length
      ∧ ds = { ds0 with labels := (lbl.drop 8).take ds0.num_images } := by
  cases hfs : fs lp with
  | none => simp [load_labels, hfs] at h
  | some lbl =>
    cases h0 : header_field lbl 0 with
    | none =>
      have r0 := read_u32_be_at_none lbl 0 h0
      simp only [Nat.mul_zero, List.drop_zero] at r0
      simp [load_labels, hfs, r0] at h
    | some t =>
      by_cases ht : t = 2049
      · subst ht
        have r0 := read_u32_be_at lbl 0 _ h0
        simp only [Nat.mul_zero, List.drop_zero, Nat.zero_add] at r0
        cases h1 : header_field lbl 1 with
        | none =>
          have r1 := read_u32_be_at_none lbl 1 h1
          simp only [Nat.mul_one] at r1
          simp [load_labels, hfs, r0, r1] at h
        | some n =>
          have e := load_labels_closed alloc fs lp ds0 lbl n hfs h0 h1
          rw [h] at e
          by_cases hn : n = ds0.num_images
          · subst hn
            rw [if_neg (by simp)] at e
            cases hres : resize_empty alloc 1 BYTE_VEC_MAX ds0.num_images with
            | error e0 =>
              rw [hres] at e
              cases e
            | ok u =>
              rw [hres] at e
              by_cases hle : ds0.num_images ≤ (lbl.drop 8).length
              · rw [if_pos hle] at e
                exact ⟨lbl, rfl, h0, h1, hle, by injection e⟩
              · rw [if_neg hle] at e
                cases e
          · rw [if_pos hn] at e
            cases e
      · rw [load_labels_bad_tag alloc fs lp ds0 lbl t hfs h0 ht] at h
        cases h

/-- Everything a successful `load_mnist` says about its two inputs and its
result. -/
theorem load_mnist_ok_inv (alloc : Nat → Bool) (fs : String → Option (List Byte))
    (ip lp : String) (nz : Bool)
    (ds : MnistDataset) (h : load_mnist alloc fs ip lp nz = .ok ds) :
    ∃ img lbl n r c, fs ip = some img ∧ fs lp = some lbl
      ∧ header_field img 0 = some 2051 ∧ header_field img 1 = some n
      ∧ header_field img 2 = some r ∧ header_field img 3 = some c
      ∧ header_field lbl 0 = some 2049 ∧ header_field lbl 1 = some n
      ∧ (n * r * c) % SIZE_MOD ≤ (img.drop 16).length
      ∧ n ≤ (lbl.drop 8).length
      ∧ ds = { images := ((img.drop 16).take ((n * r * c) % SIZE_MOD)).map (convert_pixel nz),
               labels := (lbl.drop 8).take n, num_images := n, rows := r, cols := c } := by
  unfold load_mnist at h
  cases hi : load_images alloc fs ip nz with
  | error e => rw [hi] at h; cases h
  | ok ds0 =>
    rw [hi] at h
    obtain ⟨img, n, r, c, hfi, h0, h1, h2, h3, hle, hds0⟩ :=
      load_images_ok_inv alloc fs ip nz ds0 hi
    obtain ⟨lbl, hfl, g0, g1, gle, hds⟩ := load_labels_ok_inv alloc fs lp ds0 ds h
    subst hds0
    exact ⟨img, lbl, n, r, c, hfi, hfl, h0, h1, h2, h3, g0, g1, hle, gle, hds⟩

/-- The two `resize` calls of a successful `load_mnist` succeeded. -/
theorem load_mnist_ok_resize (alloc : Nat → Bool) (fs : String → Option (List Byte))
    (ip lp : String) (nz : Bool)
    (ds : MnistDataset) (h : load_mnist alloc fs ip lp nz = .ok ds) :
    resize_empty alloc 4 FLOAT_VEC_MAX ((ds.num_images * ds.rows * ds.cols) % SIZE_MOD) = .ok ()
      ∧ resize_empty alloc 1 BYTE_VEC_MAX ds.num_images = .ok () := by
  obtain ⟨img, lbl, n, r, c, hfi, hfl, h0, h1, h2, h3, g0, g1, hle, gle, hds⟩ :=
    load_mnist_ok_inv alloc fs ip lp nz ds h
  subst hds
  simp only
  constructor
  · cases hres : resize_empty alloc 4 FLOAT_VEC_MAX ((n * r * c) % SIZE_MOD) with
    | error e0 =>
      unfold load_mnist at h
      rw [load_images_resize_error alloc fs ip nz img n r c e0 hfi h0 h1 h2 h3 hres] at h
      cases h
    | ok u => rfl
  · cases gres : resize_empty alloc 1 BYTE_VEC_MAX n with
    | error e0 =>
      cases hres : resize_empty alloc 4 FLOAT_VEC_MAX ((n * r * c) % SIZE_MOD) with
      | error e1 =>
        unfold load_mnist at h
        rw [load_images_resize_error alloc fs ip nz img n r c e1 hfi h0 h1 h2 h3 hres] at h
        cases h
      | ok u =>
        unfold load_mnist at h
        rw [load_images_header alloc fs ip nz img n r c hfi h0 h1 h2 h3 hres, if_pos hle] at h
        simp only [] at h
        rw [load_labels_closed alloc fs lp _ lbl n hfl g0 g1, if_neg (by simp), gres] at h
        cases h
    | ok u => rfl

/-! ## Buffer geometry of a loaded dataset -/

/-- The pixel buffer has `num_images * rows * cols` elements reduced modulo the
range of `size_t`. -/
theorem load_mnist_images_length_mod (alloc : Nat → Bool)
    (fs : String → Option (List Byte)) (ip lp : String)
    (nz : Bool) (ds : MnistDataset) (h : load_mnist alloc fs ip lp nz = .ok ds) :
    ds.images.length = (ds.num_images * ds.rows * ds.cols) % SIZE_MOD := by
  obtain ⟨img, lbl, n, r, c, -, -, -, -, -, -, -, -, hle, -, hds⟩ :=
    load_mnist_ok_inv alloc fs ip lp nz ds h
  subst hds
  simp only [List.length_map, List.length_take]
  omega

/-- When the product of the three header fields fits `size_t`, the pixel buffer
has exactly that many elements. -/
theorem load_mnist_images_length_of_fit (alloc : Nat → Bool)
    (fs : String → Option (List Byte)) (ip lp : String)
    (nz : Bool) (ds : MnistDataset) (h : load_mnist alloc fs ip lp nz = .ok ds)
    (hfit : ds.num_images * ds.rows * ds.cols < SIZE_MOD) :
    ds.images.length = ds.num_images * ds.rows * ds.cols := by
  rw [load_mnist_images_length_mod alloc fs ip lp nz ds h, Nat.mod_eq_of_lt hfit]

/-- C1 (evaluation at the failing input): on a header declaring 4 images of
2^31 x 2^31 pixels `load_mnist` succeeds and returns the three header fields
with an empty pixel buffer, so `images.length` is 0 and not
`num_images * rows * cols = 2^64`. -/
theorem load_mnist_overflow_images_length :
    ∃ ds : MnistDataset, load_mnist enough_memory overflow_fs "images" "labels" true = .ok ds
      ∧ header_field [0, 0, 8, 3, 0, 0, 0, 4, 128, 0, 0, 0, 128, 0, 0, 0] 1
          = some ds.num_images
      ∧ header_field [0, 0, 8, 3, 0, 0, 0, 4, 128, 0, 0, 0, 128, 0, 0, 0] 2 = some ds.rows
      ∧ header_field [0, 0, 8, 3, 0, 0, 0, 4, 128, 0, 0, 0, 128, 0, 0, 0] 3 = some ds.cols
      ∧ ds.images.length = 0
      ∧ ds.num_images * ds.rows * ds.cols = 2 ^ 64
      ∧ ds.images.length ≠ ds.num_images * ds.rows * ds.cols := by
  refine ⟨{ images := [], labels := [0, 1, 2, 3], num_images := 4,
            rows := 2 ^ 31, cols := 2 ^ 31 }, rfl, rfl, rfl, rfl, rfl, by decide, by decide⟩

/-! ## Order of the checks -/

/-- C2 (counterexample): both headers decode, with tags 2051 and 2049 and counts
5 and 4, but the image body is empty; `load_mnist` fails with the truncated
image data error, not with the count mismatch: the pixel bytes are read before
the label header. The pixel buffer is allocated earlier still: with the full
5-byte body and an allocator that grants nothing, the failure is the `bad_alloc`
of `images.resize`. -/
theorem count_check_after_pixel_read :
    header_field [0, 0, 8, 3, 0, 0, 0, 5, 0, 0, 0, 1, 0, 0, 0, 1] 0 = some 2051
      ∧ header_field [0, 0, 8, 3, 0, 0, 0, 5, 0, 0, 0, 1, 0, 0, 0, 1] 1 = some 5
      ∧ header_field [0, 0, 8, 1, 0, 0, 0, 4, 0, 1, 2, 3] 0 = some 2049
      ∧ header_field [0, 0, 8, 1, 0, 0, 0, 4, 0, 1, 2, 3] 1 = some 4
      ∧ load_mnist enough_memory mismatch_short_fs "images" "labels" true
          = .error (.runtime_error "Unexpected EOF while reading image data")
      ∧ load_mnist enough_memory mismatch_short_fs "images" "labels" true
          ≠ .error (.runtime_error "Images count (5) != labels count (4)")
      ∧ load_mnist (memory_limit 0) mismatch_fs "images" "labels" true
          = .error (.bad_alloc "std::bad_alloc") := by
  refine ⟨rfl, rfl, rfl, rfl, rfl, ?_, rfl⟩
  intro h
  have e : load_mnist enough_memory mismatch_short_fs "images" "labels" true
      = .error (.runtime_error "Unexpected EOF while reading image data") := rfl
  rw [e] at h
  injection h with h
  injection h with h
  exact absurd h (by decide)

/-- C2 (amended): when both headers decode with tags 2051 and 2049, the declared
counts differ, the pixel buffer of `n * rows * cols` floats can be allocated
(`images.resize` succeeds) and the image body holds at least `n * rows * cols`
bytes, `load_mnist` fails with the count mismatch error carrying both counts,
whatever the label body is. -/
theorem load_mnist_count_mismatch (alloc : Nat → Bool)
    (fs : String → Option (List Byte)) (ip lp : String)
    (nz : Bool) (img lbl : List Byte) (images_n rows cols labels_n : Nat)
    (hfi : fs ip = some img) (hfl : fs lp = some lbl)
    (h0 : header_field img 0 = some 2051) (h1 : header_field img 1 = some images_n)
    (h2 : header_field img 2 = some rows) (h3 : header_field img 3 = some cols)
    (g0 : header_field lbl 0 = some 2049) (g1 : header_field lbl 1 = some labels_n)
    (hne : images_n ≠ labels_n)
    (hres : resize_empty alloc 4 FLOAT_VEC_MAX ((images_n * rows * cols) % SIZE_MOD) = .ok ())
    (hbody : images_n * rows * cols ≤ (img.drop 16).length) :
    load_mnist alloc fs ip lp nz = .error (.runtime_error
      ("Images count (" ++ toString images_n ++ ") != labels count ("
        ++ toString labels_n ++ ")")) := by
  have hle : (images_n * rows * cols) % SIZE_MOD ≤ (img.drop 16).length :=
    Nat.le_trans (Nat.mod_le _ _) hbody
  unfold load_mnist
  rw [load_images_header alloc fs ip nz img images_n rows cols hfi h0 h1 h2 h3
    hres, if_pos hle]
  simp only []
  rw [load_labels_header alloc fs lp _ lbl labels_n hfl g0 g1
    (fun e => absurd e.symm hne), if_pos (fun e => hne e.symm)]

/-- C2, instance: counts 5 and 4 with the complete 5-byte image body. -/
theorem load_mnist_count_mismatch_witness :
    load_mnist enough_memory mismatch_fs "images" "labels" true
      = .error (.runtime_error "Images count (5) != labels count (4)") :=
  load_mnist_count_mismatch enough_memory mismatch_fs "images" "labels" true
    [0, 0, 8, 3, 0, 0, 0, 5, 0, 0, 0, 1, 0, 0, 0, 1, 10, 20, 30, 40, 50]
    [0, 0, 8, 1, 0, 0, 0, 4, 0, 1, 2, 3] 5 1 1 4 rfl rfl rfl rfl rfl rfl rfl rfl
    (by decide) rfl (by decide)

/-- C7: when the first four bytes of the image stream decode to `t ≠ 2051`,
`load_mnist` fails with the tag mismatch error naming 2051 and `t`, for every
file system around the image file, every label path and every allocator: the
label file may be missing, short or wrong, it is never consulted, and nothing
has been allocated yet. -/
theorem load_mnist_image_tag_mismatch (alloc : Nat → Bool)
    (fs : String → Option (List Byte)) (ip lp : String)
    (nz : Bool) (img : List Byte) (t : Nat)
    (hfi : fs ip = some img) (h0 : header_field img 0 = some t) (ht : t ≠ 2051) :
    load_mnist alloc fs ip lp nz = .error (.runtime_error
        ("Images file magic mismatch: expected 2051, got " ++ toString t))
      ∧ ∀ (alloc2 : Nat → Bool) (fs2 : String → Option (List Byte)) (lp2 : String),
          fs2 ip = some img →
          load_mnist alloc2 fs2 ip lp2 nz = load_mnist alloc fs ip lp nz := by
  have key : ∀ (alloc2 : Nat → Bool) (fs2 : String → Option (List Byte)) (lp2 : String),
      fs2 ip = some img →
      load_mnist alloc2 fs2 ip lp2 nz = .error (.runtime_error
        ("Images file magic mismatch: expected 2051, got " ++ toString t)) := by
    intro alloc2 fs2 lp2 h2
    unfold load_mnist
    rw [load_images_bad_tag alloc2 fs2 ip nz img t h2 h0 ht]
  refine ⟨key alloc fs lp hfi, fun alloc2 fs2 lp2 h2 => ?_⟩
  rw [key alloc2 fs2 lp2 h2, key alloc fs lp hfi]

/-- C7, instance: an image file tagged 2049 and no label file at all. -/
theorem load_mnist_image_tag_mismatch_witness :
    bad_tag_fs "labels" = none
      ∧ load_mnist enough_memory bad_tag_fs "images" "labels" true
          = .error (.runtime_error "Images file magic mismatch: expected 2051, got 2049") :=
  ⟨rfl, (load_mnist_image_tag_mismatch enough_memory bad_tag_fs "images" "labels" true
    [0, 0, 8, 1, 0, 0, 0, 1] 2049 rfl rfl (by decide)).1⟩

/-! ## Pixel values and label count -/

theorem convert_pixel_bounds (nz : Bool) (b : Byte) :
    (nz = true → 0 ≤ convert_pixel nz b ∧ convert_pixel nz b ≤ 1)
      ∧ (nz = false → 0 ≤ convert_pixel nz b ∧ convert_pixel nz b ≤ 255) := by
  have hb : (b.val : ℚ) ≤ 255 := by
    have : b.val ≤ 255 := by omega
    exact_mod_cast this
  have h0 : (0 : ℚ) ≤ (b.val : ℚ) := Nat.cast_nonneg _
  constructor
  · intro h
    subst h
    simp only [convert_pixel, if_true]
    constructor
    · positivity
    · rw [div_le_one (by norm_num)]
      exact hb
  · intro h
    subst h
    simp only [convert_pixel, Bool.false_eq_true, if_false]
    exact ⟨h0, hb⟩

/-- Element `k` of the pixel buffer is the converted byte at offset `16 + k` of
the image file. -/
theorem load_mnist_images_getElem (alloc : Nat → Bool)
    (fs : String → Option (List Byte)) (ip lp : String)
    (nz : Bool) (ds : MnistDataset) (img : List Byte)
    (h : load_mnist alloc fs ip lp nz = .ok ds) (hfi : fs ip = some img)
    (k : Nat) (hk : k < ds.images.length) :
    ∃ b : Byte, img[16 + k]? = some b ∧ ds.images[k]? = some (convert_pixel nz b) := by
  obtain ⟨img1, lbl, n, r, c, hfi1, -, -, -, -, -, -, -, hle, -, hds⟩ :=
    load_mnist_ok_inv alloc fs ip lp nz ds h
  rw [hfi] at hfi1
  injection hfi1 with hfi1
  subst hfi1
  subst hds
  simp only [List.length_map, List.length_take] at hk
  have hk1 : k < (n * r * c) % SIZE_MOD := by omega
  have hk2 : k < (img.drop 16).length := by omega
  have hk3 : 16 + k < img.length := by
    simp only [List.length_drop] at hk2
    omega
  refine ⟨img[16 + k], List.getElem?_eq_getElem hk3, ?_⟩
  simp only [List.getElem?_map, List.getElem?_take_of_lt hk1, List.getElem?_drop,
    List.getElem?_eq_getElem hk3, Option.map_some']

/-- C5: after a successful `load_mnist`, for every `k < images.length` the byte
`b` at offset `16 + k` of the image file exists and `images[k]` is `b / 255`
(in `[0, 1]`) with normalisation and `b` itself (in `[0, 255]`) without;
values over exact rationals. -/
theorem load_mnist_pixel_value (alloc : Nat → Bool)
    (fs : String → Option (List Byte)) (ip lp : String)
    (nz : Bool) (ds : MnistDataset) (img : List Byte)
    (h : load_mnist alloc fs ip lp nz = .ok ds) (hfi : fs ip = some img)
    (k : Nat) (hk : k < ds.images.length) :
    ∃ (b : Byte) (v : ℚ), img[16 + k]? = some b ∧ ds.images[k]? = some v
      ∧ (nz = true → v = (b.val : ℚ) / 255 ∧ 0 ≤ v ∧ v ≤ 1)
      ∧ (nz = false → v = (b.val : ℚ) ∧ 0 ≤ v ∧ v ≤ 255) := by
  obtain ⟨b, hb, hv⟩ := load_mnist_images_getElem alloc fs ip lp nz ds img h hfi k hk
  have hbd := convert_pixel_bounds nz b
  refine ⟨b, convert_pixel nz b, hb, hv, ?_, ?_⟩
  · intro hn
    refine ⟨?_, hbd.1 hn⟩
    subst hn
    simp [convert_pixel]
  · intro hn
    refine ⟨?_, hbd.2 hn⟩
    subst hn
    simp [convert_pixel]

theorem load_mnist_small_fs (nz : Bool) :
    load_mnist enough_memory small_fs "images" "labels" nz
      = .ok { images := small_img_body.map (convert_pixel nz),
              labels := [7, 200], num_images := 2, rows := 1, cols := 2 } := rfl

/-- C5, instance: pixel 1 of the small archive, loaded with normalisation, is
byte 17 of the image file (51) divided by 255. -/
theorem load_mnist_pixel_value_witness :
    small_img[16 + 1]? = some 51
      ∧ (small_img_body.map (convert_pixel true))[1]? = some ((51 : ℚ) / 255)
      ∧ (0 : ℚ) ≤ 51 / 255 ∧ (51 : ℚ) / 255 ≤ 1 := by
  obtain ⟨b, v, hb, hv, hn, -⟩ :=
    load_mnist_pixel_value enough_memory small_fs "images" "labels" true _ small_img
      (load_mnist_small_fs true) rfl 1 (by decide)
  have hb1 : small_img[16 + 1]? = some 51 := rfl
  have hb2 : b = 51 := by
    rw [hb1] at hb
    injection hb with hb
    exact hb.symm
  subst hb2
  obtain ⟨hv1, hv2, hv3⟩ := hn rfl
  have hc : (((51 : Byte).val : ℕ) : ℚ) = 51 := by
    show ((51 : ℕ) : ℚ) = 51
    norm_num
  rw [hc] at hv1
  subst hv1
  exact ⟨hb1, hv, hv2, hv3⟩

/-- C6: after a successful `load_mnist`, `labels.length` equals `num_images`,
which is the count field of the image file and the count field of the label
file. -/
theorem load_mnist_labels_length (alloc : Nat → Bool)
    (fs : String → Option (List Byte)) (ip lp : String)
    (nz : Bool) (ds : MnistDataset) (img lbl : List Byte)
    (h : load_mnist alloc fs ip lp nz = .ok ds) (hfi : fs ip = some img)
    (hfl : fs lp = some lbl) :
    ds.labels.length = ds.num_images
      ∧ header_field img 1 = some ds.num_images
      ∧ header_field lbl 1 = some ds.num_images := by
  obtain ⟨img1, lbl1, n, r, c, hfi1, hfl1, -, h1, -, -, -, g1, -, gle, hds⟩ :=
    load_mnist_ok_inv alloc fs ip lp nz ds h
  rw [hfi] at hfi1
  rw [hfl] at hfl1
  injection hfi1 with hfi1
  injection hfl1 with hfl1
  subst hfi1
  subst hfl1
  subst hds
  refine ⟨?_, h1, g1⟩
  simp only [List.length_take]
  omega

/-- C6, instance: the small archive declares 2 records in both files and loads
to 2 labels. -/
theorem load_mnist_labels_length_witness :
    load_mnist enough_memory small_fs "images" "labels" false = .ok small_ds
      ∧ small_ds.labels.length = small_ds.num_images
      ∧ header_field small_img 1 = some small_ds.num_images
      ∧ header_field [0, 0, 8, 1, 0, 0, 0, 2, 7, 200] 1 = some small_ds.num_images :=
  ⟨rfl, load_mnist_labels_length enough_memory small_fs "images" "labels" false small_ds small_img
    [0, 0, 8, 1, 0, 0, 0, 2, 7, 200] rfl rfl rfl⟩

/-! ## Truncated image body -/

theorem truncated_img_body_length : (truncated_img.drop 16).length = 783 := by
  have e : truncated_img.drop 16 = List.replicate 783 0 := rfl
  rw [e, List.length_replicate]

/-- C8 (counterexample): the 28 x 28, count = 1 archive with 783 body bytes fails
with the fixed text `Unexpected EOF while reading image data`; the index 783
does not occur in it, and an archive truncated at index 2 gives the very same
error. Moreover a body shorter than the mathematical product need not fail
that way: the header 4 x 2^31 x 2^31 with an empty body loads; the header
1 x 2^31 x 2^31 with an empty body fails in `images.resize`, with
`length_error`, before any byte of the body is asked for; and so does the
783-byte archive, with `bad_alloc`, when the allocator grants nothing. -/
theorem truncated_image_error_names_no_index :
    header_field truncated_img 0 = some 2051 ∧ header_field truncated_img 1 = some 1
      ∧ header_field truncated_img 2 = some 28 ∧ header_field truncated_img 3 = some 28
      ∧ (truncated_img.drop 16).length = 783
      ∧ load_mnist enough_memory truncated_fs "images" "labels" true
          = .error (.runtime_error "Unexpected EOF while reading image data")
      ∧ ¬ ((toString 783).toList <:+: "Unexpected EOF while reading image data".toList)
      ∧ load_mnist enough_memory truncated_small_fs "images" "labels" true
          = load_mnist enough_memory truncated_fs "images" "labels" true
      ∧ (0 < 4 * 2 ^ 31 * 2 ^ 31
          ∧ load_mnist enough_memory overflow_fs "images" "labels" true
            = .ok { images := [], labels := [0, 1, 2, 3], num_images := 4,
                    rows := 2 ^ 31, cols := 2 ^ 31 })
      ∧ (0 < 1 * 2 ^ 31 * 2 ^ 31 ∧ 1 * 2 ^ 31 * 2 ^ 31 < SIZE_MOD
          ∧ FLOAT_VEC_MAX < 1 * 2 ^ 31 * 2 ^ 31
          ∧ load_mnist enough_memory oversize_fs "images" "labels" true
            = .error (.length_error "vector::_M_default_append"))
      ∧ load_mnist (memory_limit 0) truncated_fs "images" "labels" true
          = .error (.bad_alloc "std::bad_alloc") := by
  refine ⟨rfl, rfl, rfl, rfl, truncated_img_body_length, ?_⟩
  have e : load_mnist enough_memory truncated_fs "images" "labels" true
      = .error (.runtime_error "Unexpected EOF while reading image data") := by
    unfold load_mnist
    rw [load_images_header enough_memory truncated_fs "images" true truncated_img 1 28 28
      rfl rfl rfl rfl rfl rfl, truncated_img_body_length]
    rfl
  refine ⟨e, by decide, ?_, ⟨by decide, rfl⟩,
    ⟨by decide, by decide, by decide, rfl⟩, rfl⟩
  rw [e]
  rfl

/-- C8 (amended): with a valid image header for which the pixel buffer of
`n * r * c` floats can be allocated (`images.resize(n * r * c)` succeeds: the
product is at most `vector<float>::max_size()` and the allocator grants the
request) and a body of fewer than `n * r * c` bytes, `load_mnist` fails with the
truncated image data error, whose text is fixed and carries no index, whatever
the label input is. -/
theorem load_mnist_truncated_image (alloc : Nat → Bool)
    (fs : String → Option (List Byte)) (ip lp : String)
    (nz : Bool) (img : List Byte) (n r c : Nat)
    (hfi : fs ip = some img)
    (h0 : header_field img 0 = some 2051) (h1 : header_field img 1 = some n)
    (h2 : header_field img 2 = some r) (h3 : header_field img 3 = some c)
    (hres : resize_empty alloc 4 FLOAT_VEC_MAX (n * r * c) = .ok ())
    (hm : (img.drop 16).length < n * r * c) :
    load_mnist alloc fs ip lp nz
      = .error (.runtime_error "Unexpected EOF while reading image data") := by
  obtain ⟨hmod, hres2⟩ := resize_images_mod alloc _ hres
  unfold load_mnist
  rw [load_images_header alloc fs ip nz img n r c hfi h0 h1 h2 h3 hres2, hmod,
    if_neg (by omega)]

/-- C8, instance: the 28 x 28, count = 1 archive with 783 body bytes. -/
theorem load_mnist_truncated_image_witness :
    (truncated_img.drop 16).length = 783
      ∧ load_mnist enough_memory truncated_fs "images" "labels" false
          = .error (.runtime_error "Unexpected EOF while reading image data") :=
  ⟨truncated_img_body_length,
    load_mnist_truncated_image enough_memory truncated_fs "images" "labels" false
      truncated_img 1 28 28 rfl rfl rfl rfl rfl rfl
      (by rw [truncated_img_body_length]; decide)⟩

/-! ## Per-image addressing -/

theorem view_base (N R C i L : Nat) (hfit : N * R * C < SIZE_MOD) (hL : N * R * C ≤ L)
    (hi : i < N) :
    (i * ((R * C) % SIZE_MOD)) % SIZE_MOD = i * R * C ∧ i * R * C + R * C ≤ L := by
  have h1 : (i + 1) * (R * C) ≤ N * (R * C) := Nat.mul_le_mul_right _ hi
  have h2 : (i + 1) * (R * C) = i * R * C + R * C := by ring
  have h3 : N * (R * C) = N * R * C := by ring
  have h4 : R * C < SIZE_MOD := by omega
  have h5 : i * (R * C) = i * R * C := by ring
  rw [Nat.mod_eq_of_lt h4, h5, Nat.mod_eq_of_lt (by omega)]
  exact ⟨rfl, by omega⟩

theorem view_cell (R C r c : Nat) (hr : r < R) (hc : c < C) : r * C + c < R * C := by
  have h1 : (r + 1) * C ≤ R * C := Nat.mul_le_mul_right _ hr
  have h2 : (r + 1) * C = r * C + C := by ring
  omega

/-- The layout contract on datasets whose geometry fits `size_t`: the view of
image `i` starts at `i * rows * cols`, lies inside the buffer, and its element
`(r, c)` is the converted byte at offset `16 + i*rows*cols + r*cols + c`. -/
theorem load_mnist_image_view_of_fit (alloc : Nat → Bool)
    (fs : String → Option (List Byte)) (ip lp : String)
    (nz : Bool) (ds : MnistDataset) (img : List Byte)
    (h : load_mnist alloc fs ip lp nz = .ok ds) (hfi : fs ip = some img)
    (hfit : ds.num_images * ds.rows * ds.cols < SIZE_MOD)
    (i : Nat) (hi : i < ds.num_images) :
    ds.image_ptr i = i * ds.rows * ds.cols
      ∧ i * ds.rows * ds.cols + ds.rows * ds.cols ≤ ds.images.length
      ∧ ∀ r c, r < ds.rows → c < ds.cols →
          ∃ b : Byte, img[16 + (i * ds.rows * ds.cols + (r * ds.cols + c))]? = some b
            ∧ ds.images[ds.image_ptr i + (r * ds.cols + c)]? = some (convert_pixel nz b) := by
  have hlen := load_mnist_images_length_of_fit alloc fs ip lp nz ds h hfit
  obtain ⟨hb, hle⟩ := view_base ds.num_images ds.rows ds.cols i ds.images.length hfit
    (Nat.le_of_eq hlen.symm) hi
  have hp : ds.image_ptr i = i * ds.rows * ds.cols := hb
  refine ⟨hp, hle, fun r c hr hc => ?_⟩
  have hcell := view_cell ds.rows ds.cols r c hr hc
  rw [hp]
  exact load_mnist_images_getElem alloc fs ip lp nz ds img h hfi _ (by omega)

/-- C9 (evaluation at the failing input): the dataset loaded from the header
4 x 2^31 x 2^31 has `num_images = 4` and an empty buffer; the view of image 0
would need `rows * cols = 2^62` elements, none of which is inside the buffer,
and the read of element `(0, 0)` is out of bounds. -/
theorem image_view_outside_buffer_on_overflow :
    ∃ ds : MnistDataset, load_mnist enough_memory overflow_fs "images" "labels" true = .ok ds
      ∧ 0 < ds.num_images ∧ 0 < ds.rows ∧ 0 < ds.cols
      ∧ ¬ (0 * ds.rows * ds.cols + ds.rows * ds.cols ≤ ds.images.length)
      ∧ ds.images[ds.image_ptr 0 + (0 * ds.cols + 0)]? = none := by
  refine ⟨{ images := [], labels := [0, 1, 2, 3], num_images := 4,
            rows := 2 ^ 31, cols := 2 ^ 31 }, rfl, by decide, by decide, by decide,
    by decide, rfl⟩

/-! ## The bounds check of `print_image_grid` -/

theorem small_ds_well_formed : small_ds.well_formed :=
  ⟨rfl, rfl, by decide, by decide, by decide⟩

/-- C10 (counterexample): `image_ptr` makes no check. On the two-image dataset
`small_ds`, whose buffer holds 4 values, `image_ptr(2)` and `image_ptr(3)` are
the offsets 4 and 6, at and past the end of the buffer: the accessor returns a
pointer for `i ≥ num_images` where the claim has an index error, and a read
through it is outside the buffer. Moreover an index below `num_images` is not
always safe: on the dataset loaded from the 4 x 2^31 x 2^31 archive the first
read of `print_image_grid` for image 0 is outside the (empty) buffer. -/
theorem image_ptr_has_no_index_check :
    small_ds.num_images = 2 ∧ small_ds.images.length = 4
      ∧ small_ds.image_ptr 2 = 4 ∧ small_ds.images[small_ds.image_ptr 2]? = none
      ∧ small_ds.image_ptr 3 = 6 ∧ small_ds.images[small_ds.image_ptr 3]? = none
      ∧ (0 < overflow_ds.num_images
          ∧ ∃ out row, print_image_grid overflow_ds 0 = .ok out
              ∧ out.grid[0]? = some row ∧ row[0]? = some none) := by
  refine ⟨rfl, rfl, rfl, rfl, rfl, rfl, by decide, ?_⟩
  have hr : 0 < overflow_ds.rows := by decide
  have hc : 0 < overflow_ds.cols := by decide
  refine ⟨{ idx := 0
            label := overflow_ds.labels[0]?
            grid := (List.range overflow_ds.rows).map fun r =>
              (List.range overflow_ds.cols).map fun c =>
                overflow_ds.images[overflow_ds.image_ptr 0
                  + (r * overflow_ds.cols + c) % SIZE_MOD]? },
    (List.range overflow_ds.cols).map fun c =>
      overflow_ds.images[overflow_ds.image_ptr 0 + (0 * overflow_ds.cols + c) % SIZE_MOD]?,
    ?_, ?_, ?_⟩
  · simp only [print_image_grid, ge_iff_le,
      if_neg (show ¬ overflow_ds.num_images ≤ 0 by decide)]
  · simp only [List.getElem?_map, List.getElem?_range hr, Option.map_some']
  · simp only [List.getElem?_map, List.getElem?_range hc, Option.map_some']
    rfl

/-- C10 (amended): `print_image_grid`, the one checked access, throws the
out-of-range error for every `idx ≥ num_images`, on every dataset. On a dataset
that satisfies the invariants of the data model, for every `idx < num_images` it
throws nothing and every read is inside its vector: the label is `labels[idx]`
and the grid has `rows` rows of `cols` values, `rows * cols` values in all, the
value at `(r, c)` being `images[idx*rows*cols + r*cols + c]`. -/
theorem print_image_grid_index_check (ds : MnistDataset) (idx : Nat) :
    (ds.num_images ≤ idx →
        print_image_grid ds idx = .error (.out_of_range "Image index out of range"))
      ∧ (ds.well_formed → idx < ds.num_images →
          ∃ (label : Byte) (grid : List (List ℚ)),
            print_image_grid ds idx
                = .ok { idx := idx, label := some label, grid := grid.map (List.map some) }
              ∧ ds.labels[idx]? = some label
              ∧ grid.length = ds.rows
              ∧ (∀ row ∈ grid, row.length = ds.cols)
              ∧ (grid.map List.length).sum = ds.rows * ds.cols
              ∧ (∀ r c, r < ds.rows → c < ds.cols →
                  idx * ds.rows * ds.cols + r * ds.cols + c < ds.images.length
                    ∧ ∃ row v, grid[r]? = some row ∧ row[c]? = some v
                        ∧ ds.images[idx * ds.rows * ds.cols + r * ds.cols + c]? = some v)) := by
  constructor
  · intro hge
    simp only [print_image_grid, ge_iff_le, if_pos hge]
  · intro hwf hlt
    obtain ⟨himg, hlabels, hsz, hdim, -⟩ := hwf
    obtain ⟨hb, hle⟩ := view_base ds.num_images ds.rows ds.cols idx ds.images.length
      (by omega) (Nat.le_of_eq himg.symm) hlt
    have hp : ds.image_ptr idx = idx * ds.rows * ds.cols := hb
    have hl : idx < ds.labels.length := by omega
    have hin : ∀ r c, r < ds.rows → c < ds.cols →
        idx * ds.rows * ds.cols + r * ds.cols + c < ds.images.length := by
      intro r c hr hc
      have := view_cell ds.rows ds.cols r c hr hc
      omega
    have hread : ∀ r c, r < ds.rows → c < ds.cols →
        ds.images[ds.image_ptr idx + (r * ds.cols + c) % SIZE_MOD]?
          = some (ds.images.getD (idx * ds.rows * ds.cols + r * ds.cols + c) 0) := by
      intro r c hr hc
      have h1 := view_cell ds.rows ds.cols r c hr hc
      have h2 := hin r c hr hc
      rw [hp, Nat.mod_eq_of_lt (by omega), ← Nat.add_assoc, List.getD_eq_getElem?_getD,
        List.getElem?_eq_getElem h2]
      rfl
    refine ⟨ds.labels[idx], (List.range ds.rows).map fun r =>
        (List.range ds.cols).map fun c =>
          ds.images.getD (idx * ds.rows * ds.cols + r * ds.cols + c) 0,
      ?_, List.getElem?_eq_getElem hl, by simp, ?_, ?_, ?_⟩
    · simp only [print_image_grid, ge_iff_le, if_neg (Nat.not_le.mpr hlt),
        List.getElem?_eq_getElem hl, List.map_map]
      congr 2
      apply List.map_congr_left
      intro r hr
      simp only [Function.comp_def, List.map_map]
      apply List.map_congr_left
      intro c hc
      exact hread r c (List.mem_range.mp hr) (List.mem_range.mp hc)
    · intro row hrow
      simp only [List.mem_map, List.mem_range] at hrow
      obtain ⟨r, -, rfl⟩ := hrow
      simp
    · simp [List.map_map, Function.comp_def]
    · intro r c hr hc
      have h2 := hin r c hr hc
      refine ⟨h2, (List.range ds.cols).map fun c =>
          ds.images.getD (idx * ds.rows * ds.cols + r * ds.cols + c) 0,
        ds.images.getD (idx * ds.rows * ds.cols + r * ds.cols + c) 0, ?_, ?_, ?_⟩
      · rw [List.getElem?_map, List.getElem?_range hr]
        rfl
      · rw [List.getElem?_map, List.getElem?_range hc]
        rfl
      · rw [List.getD_eq_getElem?_getD, List.getElem?_eq_getElem h2]
        rfl

/-- C10, instance: on the two-image dataset, which satisfies the invariants,
index 2 is refused and index 1 reads the label 200 and the two values 0 and 102
of the second image, at the buffer indices 2 and 3. -/
theorem print_image_grid_index_check_witness :
    small_ds.well_formed
      ∧ print_image_grid small_ds 2 = .error (.out_of_range "Image index out of range")
      ∧ print_image_grid small_ds 1
          = .ok { idx := 1, label := some 200, grid := [[some 0, some 102]] }
      ∧ ∃ (label : Byte) (grid : List (List ℚ)),
          print_image_grid small_ds 1
              = .ok { idx := 1, label := some label, grid := grid.map (List.map some) }
            ∧ small_ds.labels[1]? = some label
            ∧ grid.length = 1
            ∧ (∀ r c, r < 1 → c < 2 →
                1 * 1 * 2 + r * 2 + c < 4
                  ∧ ∃ row v, grid[r]? = some row ∧ row[c]? = some v
                      ∧ small_ds.images[1 * 1 * 2 + r * 2 + c]? = some v) := by
  obtain ⟨label, grid, h1, h2, h3, -, -, h6⟩ :=
    (print_image_grid_index_check small_ds 1).2 small_ds_well_formed (by decide)
  exact ⟨small_ds_well_formed, (print_image_grid_index_check small_ds 2).1 (by decide), rfl,
    label, grid, h1, h2, h3, h6⟩

theorem read_u32_be_take (f : List Byte) (m : Nat) (hm : 4 ≤ m) :
    (match read_u32_be (f.take m) with | .ok (v, _) => some v | .error _ => none)
      = (match read_u32_be f with | .ok (v, _) => some v | .error _ => none) := by
  obtain ⟨j, rfl⟩ : ∃ j, m = j + 4 := ⟨m - 4, by omega⟩
  match f with
  | [] => rfl
  | [_] => rfl
  | [_, _] => rfl
  | [_, _, _] => rfl
  | b0 :: b1 :: b2 :: b3 :: rest =>
    simp only [List.take_succ_cons, read_u32_be_cons4]

/-- A header field depends only on the bytes up to its end. -/
theorem header_field_take (s : List Byte) (k m : Nat) (hm : 4 * k + 4 ≤ m) :
    header_field (s.take m) k = header_field s k := by
  unfold header_field
  rw [List.drop_take]
  exact read_u32_be_take (s.drop (4 * k)) (m - 4 * k) (by omega)

/-! ## Labels -/

/-- C11: after a successful `load_mnist`, for every `i < num_images` the byte at
offset `8 + i` of the label file exists and `labels[i]` is that byte, whatever
its value; and the outcome does not depend on the label values: replacing the
label file by any file of the same length with the same 8-byte header loads
again, with the new bytes as labels. -/
theorem load_mnist_label_value (alloc : Nat → Bool)
    (fs : String → Option (List Byte)) (ip lp : String)
    (nz : Bool) (ds : MnistDataset) (lbl : List Byte)
    (h : load_mnist alloc fs ip lp nz = .ok ds) (hfl : fs lp = some lbl) :
    (∀ i, i < ds.num_images → ∃ b : Byte, lbl[8 + i]? = some b ∧ ds.labels[i]? = some b)
      ∧ ∀ (fs2 : String → Option (List Byte)) (lbl2 : List Byte),
          fs2 ip = fs ip → fs2 lp = some lbl2 → lbl2.take 8 = lbl.take 8 →
          lbl2.length = lbl.length →
          load_mnist alloc fs2 ip lp nz
            = .ok { ds with labels := (lbl2.drop 8).take ds.num_images } := by
  obtain ⟨hres, gres⟩ := load_mnist_ok_resize alloc fs ip lp nz ds h
  obtain ⟨img, lbl1, n, r, c, hfi, hfl1, h0, h1, h2, h3, g0, g1, hle, gle, hds⟩ :=
    load_mnist_ok_inv alloc fs ip lp nz ds h
  rw [hfl] at hfl1
  injection hfl1 with hfl1
  subst hfl1
  subst hds
  constructor
  · intro i hi
    simp only at hi
    have hi2 : i < (lbl.drop 8).length := by omega
    have hi3 : 8 + i < lbl.length := by
      simp only [List.length_drop] at hi2
      omega
    refine ⟨lbl[8 + i], List.getElem?_eq_getElem hi3, ?_⟩
    simp only [List.getElem?_take_of_lt hi, List.getElem?_drop, List.getElem?_eq_getElem hi3]
  · intro fs2 lbl2 e1 e2 e3 e4
    have k0 : header_field lbl2 0 = some 2049 := by
      rw [← header_field_take lbl2 0 8 (by omega), e3, header_field_take lbl 0 8 (by omega)]
      exact g0
    have k1 : header_field lbl2 1 = some n := by
      rw [← header_field_take lbl2 1 8 (by omega), e3, header_field_take lbl 1 8 (by omega)]
      exact g1
    unfold load_mnist
    rw [load_images_header alloc fs2 ip nz img n r c (e1.trans hfi) h0 h1 h2 h3 hres,
      if_pos hle]
    simp only []
    rw [load_labels_header alloc fs2 lp _ lbl2 n e2 k0 k1 (fun _ => gres), if_neg (by simp),
      if_pos]
    simp only [List.length_drop] at gle ⊢
    omega

/-- C11, instance: the small archive carries the label byte 200 at offset 9 and
loads it as `labels[1]`. -/
theorem load_mnist_label_value_witness :
    ∃ b : Byte, ([0, 0, 8, 1, 0, 0, 0, 2, 7, 200] : List Byte)[8 + 1]? = some b
      ∧ small_ds.labels[1]? = some b :=
  (load_mnist_label_value enough_memory small_fs "images" "labels" false small_ds
    [0, 0, 8, 1, 0, 0, 0, 2, 7, 200] rfl rfl).1 1 (by decide)

/-- C12 (counterexample): the image header is valid (count 1, 1 x 1) but its body
is empty, and the label file is tagged 2051; `load_mnist` fails with the
truncated image data error, not with the label tag mismatch: the image body is
read before the label header. The pixel buffer is allocated earlier still: with
the full one-byte body and an allocator that grants nothing, the failure is the
`bad_alloc` of `images.resize`. -/
theorem label_tag_check_after_pixel_read :
    header_field [0, 0, 8, 3, 0, 0, 0, 1, 0, 0, 0, 1, 0, 0, 0, 1] 0 = some 2051
      ∧ header_field [0, 0, 8, 3, 0, 0, 0, 1, 0, 0, 0, 1, 0, 0, 0, 1] 1 = some 1
      ∧ header_field [0, 0, 8, 3, 0, 0, 0, 1, 0, 0, 0, 1, 0, 0, 0, 1] 2 = some 1
      ∧ header_field [0, 0, 8, 3, 0, 0, 0, 1, 0, 0, 0, 1, 0, 0, 0, 1] 3 = some 1
      ∧ header_field [0, 0, 8, 3, 0, 0, 0, 1, 5] 0 = some 2051
      ∧ load_mnist enough_memory label_tag_short_fs "images" "labels" true
          = .error (.runtime_error "Unexpected EOF while reading image data")
      ∧ load_mnist enough_memory label_tag_short_fs "images" "labels" true
          ≠ .error (.runtime_error "Labels file magic mismatch: expected 2049, got 2051")
      ∧ load_mnist (memory_limit 0) label_tag_fs "images" "labels" true
          = .error (.bad_alloc "std::bad_alloc") := by
  refine ⟨rfl, rfl, rfl, rfl, rfl, rfl, ?_, rfl⟩
  intro h
  have e : load_mnist enough_memory label_tag_short_fs "images" "labels" true
      = .error (.runtime_error "Unexpected EOF while reading image data") := rfl
  rw [e] at h
  injection h with h
  injection h with h
  exact absurd h (by decide)

/-- C12 (amended): with a valid image header whose pixel buffer can be allocated
(`images.resize` succeeds) and whose body holds at least `n * r * c` bytes, and a
label file whose first field is `t ≠ 2049`, `load_mnist` fails with the tag
mismatch error naming 2049 and `t`. -/
theorem load_mnist_label_tag_mismatch (alloc : Nat → Bool)
    (fs : String → Option (List Byte)) (ip lp : String)
    (nz : Bool) (img lbl : List Byte) (n r c t : Nat)
    (hfi : fs ip = some img) (hfl : fs lp = some lbl)
    (h0 : header_field img 0 = some 2051) (h1 : header_field img 1 = some n)
    (h2 : header_field img 2 = some r) (h3 : header_field img 3 = some c)
    (g0 : header_field lbl 0 = some t) (ht : t ≠ 2049)
    (hres : resize_empty alloc 4 FLOAT_VEC_MAX ((n * r * c) % SIZE_MOD) = .ok ())
    (hbody : n * r * c ≤ (img.drop 16).length) :
    load_mnist alloc fs ip lp nz = .error (.runtime_error
      ("Labels file magic mismatch: expected 2049, got " ++ toString t)) := by
  have hle : (n * r * c) % SIZE_MOD ≤ (img.drop 16).length :=
    Nat.le_trans (Nat.mod_le _ _) hbody
  unfold load_mnist
  rw [load_images_header alloc fs ip nz img n r c hfi h0 h1 h2 h3 hres, if_pos hle]
  simp only []
  rw [load_labels_bad_tag alloc fs lp _ lbl t hfl g0 ht]

/-- C12, instance: a complete one-pixel image file and a label file tagged
2051. -/
theorem load_mnist_label_tag_mismatch_witness :
    load_mnist enough_memory label_tag_fs "images" "labels" true
      = .error (.runtime_error "Labels file magic mismatch: expected 2049, got 2051") :=
  load_mnist_label_tag_mismatch enough_memory label_tag_fs "images" "labels" true
    [0, 0, 8, 3, 0, 0, 0, 1, 0, 0, 0, 1, 0, 0, 0, 1, 77] [0, 0, 8, 3, 0, 0, 0, 1, 5]
    1 1 1 2051 rfl rfl rfl rfl rfl rfl rfl (by decide) rfl (by decide)

/-- C13 (counterexample): the image file is complete and valid (count 2, 1 x 2
pixels, 4 body bytes) and the label file has tag 2049, count 2 and a single body
byte, but the allocator grants nothing: `images.resize(4)` throws `bad_alloc`,
so `load_mnist` fails before the label file is opened, and not with the
truncated label data error. -/
theorem truncated_label_error_after_allocation :
    header_field small_img 0 = some 2051 ∧ header_field small_img 1 = some 2
      ∧ header_field small_img 2 = some 1 ∧ header_field small_img 3 = some 2
      ∧ 2 * 1 * 2 ≤ (small_img.drop 16).length
      ∧ header_field [0, 0, 8, 1, 0, 0, 0, 2, 7] 0 = some 2049
      ∧ header_field [0, 0, 8, 1, 0, 0, 0, 2, 7] 1 = some 2
      ∧ (([0, 0, 8, 1, 0, 0, 0, 2, 7] : List Byte).drop 8).length < 2
      ∧ resize_empty (memory_limit 0) 4 FLOAT_VEC_MAX (2 * 1 * 2)
          = .error (.bad_alloc "std::bad_alloc")
      ∧ load_mnist (memory_limit 0) label_short_fs "images" "labels" true
          = .error (.bad_alloc "std::bad_alloc")
      ∧ load_mnist (memory_limit 0) label_short_fs "images" "labels" true
          ≠ .error (.runtime_error "Unexpected EOF while reading label data") := by
  refine ⟨rfl, rfl, rfl, rfl, by decide, rfl, rfl, by decide, rfl, rfl, ?_⟩
  intro h
  have e : load_mnist (memory_limit 0) label_short_fs "images" "labels" true
      = .error (.bad_alloc "std::bad_alloc") := rfl
  rw [e] at h
  injection h with h
  exact absurd h (by decide)

/-- C13 (amended): with a valid image header whose body holds at least
`n * r * c` bytes and a label file with tag 2049 and the same count `n` whose
body holds fewer than `n` bytes, `load_mnist` returns no dataset; when moreover
the two buffers can be allocated (`images.resize` and `labels.resize` succeed) it
fails with the truncated label data error. -/
theorem load_mnist_truncated_label (alloc : Nat → Bool)
    (fs : String → Option (List Byte)) (ip lp : String)
    (nz : Bool) (img lbl : List Byte) (n r c : Nat)
    (hfi : fs ip = some img) (hfl : fs lp = some lbl)
    (h0 : header_field img 0 = some 2051) (h1 : header_field img 1 = some n)
    (h2 : header_field img 2 = some r) (h3 : header_field img 3 = some c)
    (g0 : header_field lbl 0 = some 2049) (g1 : header_field lbl 1 = some n)
    (hbody : n * r * c ≤ (img.drop 16).length)
    (hshort : (lbl.drop 8).length < n) :
    (∀ ds, load_mnist alloc fs ip lp nz ≠ .ok ds)
      ∧ (resize_empty alloc 4 FLOAT_VEC_MAX ((n * r * c) % SIZE_MOD) = .ok () →
          resize_empty alloc 1 BYTE_VEC_MAX n = .ok () →
          load_mnist alloc fs ip lp nz
            = .error (.runtime_error "Unexpected EOF while reading label data")) := by
  have hle : (n * r * c) % SIZE_MOD ≤ (img.drop 16).length :=
    Nat.le_trans (Nat.mod_le _ _) hbody
  constructor
  · intro ds hds
    obtain ⟨img2, lbl2, n2, r2, c2, hfi2, hfl2, -, k1, -, -, -, m1, -, gle, -⟩ :=
      load_mnist_ok_inv alloc fs ip lp nz ds hds
    rw [hfl] at hfl2
    injection hfl2 with hfl2
    subst hfl2
    rw [g1] at m1
    injection m1 with m1
    subst m1
    omega
  · intro hres gres
    unfold load_mnist
    rw [load_images_header alloc fs ip nz img n r c hfi h0 h1 h2 h3 hres, if_pos hle]
    simp only []
    rw [load_labels_header alloc fs lp _ lbl n hfl g0 g1 (fun _ => gres), if_neg (by simp),
      if_neg (by omega)]

/-- C13, instance: two images declared in both files, one label byte present. -/
theorem load_mnist_truncated_label_witness :
    (([0, 0, 8, 1, 0, 0, 0, 2, 7] : List Byte).drop 8).length < 2
      ∧ load_mnist enough_memory label_short_fs "images" "labels" true
          = .error (.runtime_error "Unexpected EOF while reading label data") :=
  ⟨by decide, (load_mnist_truncated_label enough_memory label_short_fs "images" "labels"
    true small_img [0, 0, 8, 1, 0, 0, 0, 2, 7] 2 1 2 rfl rfl rfl rfl rfl rfl rfl rfl
    (by decide) (by decide)).2 rfl rfl⟩

/-! ## When `load_mnist` succeeds -/

/-- Success of `load_mnist`, exactly: both headers are present and valid, the
counts agree, the two `resize` calls succeed, the image body holds `n * r * c`
bytes reduced modulo the range of `size_t`, and the label body holds `n`
bytes. -/
theorem load_mnist_ok_iff_mod (alloc : Nat → Bool) (fs : String → Option (List Byte))
    (ip lp : String) (nz : Bool) :
    (∃ ds, load_mnist alloc fs ip lp nz = .ok ds) ↔
      ∃ img lbl n r c, fs ip = some img ∧ fs lp = some lbl
        ∧ header_field img 0 = some 2051 ∧ header_field img 1 = some n
        ∧ header_field img 2 = some r ∧ header_field img 3 = some c
        ∧ header_field lbl 0 = some 2049 ∧ header_field lbl 1 = some n
        ∧ resize_empty alloc 4 FLOAT_VEC_MAX ((n * r * c) % SIZE_MOD) = .ok ()
        ∧ resize_empty alloc 1 BYTE_VEC_MAX n = .ok ()
        ∧ (n * r * c) % SIZE_MOD ≤ (img.drop 16).length
        ∧ n ≤ (lbl.drop 8).length := by
  constructor
  · rintro ⟨ds, h⟩
    obtain ⟨hres, gres⟩ := load_mnist_ok_resize alloc fs ip lp nz ds h
    obtain ⟨img, lbl, n, r, c, hfi, hfl, h0, h1, h2, h3, g0, g1, hle, gle, hds⟩ :=
      load_mnist_ok_inv alloc fs ip lp nz ds h
    subst hds
    exact ⟨img, lbl, n, r, c, hfi, hfl, h0, h1, h2, h3, g0, g1, hres, gres, hle, gle⟩
  · rintro ⟨img, lbl, n, r, c, hfi, hfl, h0, h1, h2, h3, g0, g1, hres, gres, hle, gle⟩
    refine ⟨{ images := ((img.drop 16).take ((n * r * c) % SIZE_MOD)).map (convert_pixel nz),
              labels := (lbl.drop 8).take n, num_images := n, rows := r, cols := c }, ?_⟩
    unfold load_mnist
    rw [load_images_header alloc fs ip nz img n r c hfi h0 h1 h2 h3 hres, if_pos hle]
    simp only []
    rw [load_labels_header alloc fs lp _ lbl n hfl g0 g1 (fun _ => gres), if_neg (by simp),
      if_pos gle]

/-- The conditions of C17, with the mathematical product, are sufficient for
`load_mnist` to succeed when the two buffers can be allocated. -/
theorem load_mnist_ok_of_complete (alloc : Nat → Bool) (fs : String → Option (List Byte))
    (ip lp : String) (nz : Bool) (img lbl : List Byte) (n r c : Nat)
    (hfi : fs ip = some img) (hfl : fs lp = some lbl)
    (h0 : header_field img 0 = some 2051) (h1 : header_field img 1 = some n)
    (h2 : header_field img 2 = some r) (h3 : header_field img 3 = some c)
    (g0 : header_field lbl 0 = some 2049) (g1 : header_field lbl 1 = some n)
    (hres : resize_empty alloc 4 FLOAT_VEC_MAX ((n * r * c) % SIZE_MOD) = .ok ())
    (gres : resize_empty alloc 1 BYTE_VEC_MAX n = .ok ())
    (hbody : n * r * c ≤ (img.drop 16).length) (gbody : n ≤ (lbl.drop 8).length) :
    ∃ ds, load_mnist alloc fs ip lp nz = .ok ds :=
  (load_mnist_ok_iff_mod alloc fs ip lp nz).mpr
    ⟨img, lbl, n, r, c, hfi, hfl, h0, h1, h2, h3, g0, g1, hres, gres,
      Nat.le_trans (Nat.mod_le _ _) hbody, gbody⟩

/-- When the product of the image header fields fits `size_t`, the conditions of
C17 are also necessary. -/
theorem load_mnist_complete_of_ok_of_fit (alloc : Nat → Bool) (fs : String → Option (List Byte))
    (ip lp : String) (nz : Bool) (ds : MnistDataset)
    (h : load_mnist alloc fs ip lp nz = .ok ds)
    (hfit : ds.num_images * ds.rows * ds.cols < SIZE_MOD) :
    ∃ img lbl, fs ip = some img ∧ fs lp = some lbl
      ∧ 16 ≤ img.length ∧ 8 ≤ lbl.length
      ∧ header_field img 0 = some 2051 ∧ header_field img 1 = some ds.num_images
      ∧ header_field img 2 = some ds.rows ∧ header_field img 3 = some ds.cols
      ∧ header_field lbl 0 = some 2049 ∧ header_field lbl 1 = some ds.num_images
      ∧ ds.num_images * ds.rows * ds.cols ≤ (img.drop 16).length
      ∧ ds.num_images ≤ (lbl.drop 8).length := by
  obtain ⟨img, lbl, n, r, c, hfi, hfl, h0, h1, h2, h3, g0, g1, hle, gle, hds⟩ :=
    load_mnist_ok_inv alloc fs ip lp nz ds h
  subst hds
  simp only at hfit ⊢
  rw [Nat.mod_eq_of_lt hfit] at hle
  have b3 := (header_field_bound img 3 c h3).2
  have b1 := (header_field_bound lbl 1 n g1).2
  exact ⟨img, lbl, hfi, hfl, by omega, by omega, h0, h1, h2, h3, g0, g1, hle, gle⟩

theorem take_agree {α : Type} (l1 l2 : List α) (K T : Nat) (h : l1.take K = l2.take K)
    (hT : T ≤ K) : (T ≤ l1.length ↔ T ≤ l2.length) ∧ l1.take T = l2.take T := by
  have hl : (l1.take K).length = (l2.take K).length := by rw [h]
  simp only [List.length_take] at hl
  have ht : ∀ l : List α, l.take T = (l.take K).take T := by
    intro l
    rw [List.take_take, Nat.min_eq_left hT]
  refine ⟨by omega, ?_⟩
  rw [ht l1, ht l2, h]

/-- Bytes after the declared bodies are ignored: with a valid image header
`(n, r, c)`, two archives that agree on the first `16 + n*r*c` image bytes and
on the first `8 + n` label bytes give the same result. -/
theorem load_mnist_ignores_trailing_bytes (alloc : Nat → Bool)
    (fs1 fs2 : String → Option (List Byte))
    (ip lp : String) (nz : Bool) (img1 img2 lbl1 lbl2 : List Byte) (n r c : Nat)
    (hi1 : fs1 ip = some img1) (hi2 : fs2 ip = some img2)
    (hl1 : fs1 lp = some lbl1) (hl2 : fs2 lp = some lbl2)
    (h0 : header_field img1 0 = some 2051) (h1 : header_field img1 1 = some n)
    (h2 : header_field img1 2 = some r) (h3 : header_field img1 3 = some c)
    (g0 : header_field lbl1 0 = some 2049) (g1 : header_field lbl1 1 = some n)
    (hi : img1.take (16 + n * r * c) = img2.take (16 + n * r * c))
    (hl : lbl1.take (8 + n) = lbl2.take (8 + n)) :
    load_mnist alloc fs1 ip lp nz = load_mnist alloc fs2 ip lp nz := by
  have hf : ∀ k, k < 4 → header_field img2 k = header_field img1 k := by
    intro k hk
    rw [← header_field_take img2 k (16 + n * r * c) (by omega), ← hi,
      header_field_take img1 k (16 + n * r * c) (by omega)]
  have gf : ∀ k, k < 2 → header_field lbl2 k = header_field lbl1 k := by
    intro k hk
    rw [← header_field_take lbl2 k (8 + n) (by omega), ← hl,
      header_field_take lbl1 k (8 + n) (by omega)]
  have hd : (img1.drop 16).take (n * r * c) = (img2.drop 16).take (n * r * c) := by
    have e : ∀ l : List Byte, (l.drop 16).take (n * r * c)
        = (l.take (16 + n * r * c)).drop 16 := by
      intro l
      rw [List.drop_take, Nat.add_sub_cancel_left]
    rw [e img1, e img2, hi]
  have gd : (lbl1.drop 8).take n = (lbl2.drop 8).take n := by
    have e : ∀ l : List Byte, (l.drop 8).take n = (l.take (8 + n)).drop 8 := by
      intro l
      rw [List.drop_take, Nat.add_sub_cancel_left]
    rw [e lbl1, e lbl2, hl]
  obtain ⟨hlen, htake⟩ := take_agree (img1.drop 16) (img2.drop 16) (n * r * c)
    ((n * r * c) % SIZE_MOD) hd (Nat.mod_le _ _)
  obtain ⟨glen, gtake⟩ := take_agree (lbl1.drop 8) (lbl2.drop 8) n n gd (Nat.le_refl _)
  unfold load_mnist
  rw [load_images_closed alloc fs1 ip nz img1 n r c hi1 h0 h1 h2 h3,
    load_images_closed alloc fs2 ip nz img2 n r c hi2 ((hf 0 (by omega)).trans h0)
      ((hf 1 (by omega)).trans h1) ((hf 2 (by omega)).trans h2) ((hf 3 (by omega)).trans h3)]
  cases resize_empty alloc 4 FLOAT_VEC_MAX ((n * r * c) % SIZE_MOD) with
  | error e => rfl
  | ok u =>
    simp only []
    by_cases hle : (n * r * c) % SIZE_MOD ≤ (img1.drop 16).length
    · rw [if_pos hle, if_pos (hlen.mp hle), htake]
      simp only []
      rw [load_labels_closed alloc fs1 lp _ lbl1 n hl1 g0 g1,
        load_labels_closed alloc fs2 lp _ lbl2 n hl2 ((gf 0 (by omega)).trans g0)
          ((gf 1 (by omega)).trans g1)]
      simp only [ne_eq, not_true_eq_false, if_false]
      cases resize_empty alloc 1 BYTE_VEC_MAX n with
      | error e => rfl
      | ok v =>
        simp only []
        by_cases gle : n ≤ (lbl1.drop 8).length
        · rw [if_pos gle, if_pos (glen.mp gle), gtake]
        · rw [if_neg gle, if_neg (fun h => gle (glen.mpr h))]
    · rw [if_neg hle, if_neg (fun h => hle (hlen.mpr h))]

/-- C17 (evaluation at the failing input): the archive whose image header
declares 4 x 2^31 x 2^31 and whose image body is empty loads, although fewer
than `n * r * c = 2^64` body bytes follow the header. -/
theorem load_mnist_ok_without_full_body :
    (∃ ds, load_mnist enough_memory overflow_fs "images" "labels" true = .ok ds)
      ∧ overflow_fs "images" = some [0, 0, 8, 3, 0, 0, 0, 4, 128, 0, 0, 0, 128, 0, 0, 0]
      ∧ header_field [0, 0, 8, 3, 0, 0, 0, 4, 128, 0, 0, 0, 128, 0, 0, 0] 1 = some 4
      ∧ header_field [0, 0, 8, 3, 0, 0, 0, 4, 128, 0, 0, 0, 128, 0, 0, 0] 2 = some (2 ^ 31)
      ∧ header_field [0, 0, 8, 3, 0, 0, 0, 4, 128, 0, 0, 0, 128, 0, 0, 0] 3 = some (2 ^ 31)
      ∧ ¬ (4 * 2 ^ 31 * 2 ^ 31
            ≤ (([0, 0, 8, 3, 0, 0, 0, 4, 128, 0, 0, 0, 128, 0, 0, 0] : List Byte).drop 16).length) := by
  refine ⟨⟨{ images := [], labels := [0, 1, 2, 3], num_images := 4,
             rows := 2 ^ 31, cols := 2 ^ 31 }, rfl⟩, rfl, rfl, rfl, rfl, by decide⟩

/-! ## The CSV reader: lines, cells and rows -/

/-- The structural `getlines` is the iteration of `getline`. -/
theorem getlines_eq_getline (delim : Char) (s : List Char) :
    getlines delim s = match getline delim s with
      | none => []
      | some (l, rest) => l :: getlines delim rest := by
  induction s with
  | nil => rfl
  | cons c s ih =>
    by_cases hc : c = delim
    · subst hc
      simp [getlines, getline]
    · simp only [getlines, if_neg hc, getline]
      rw [ih]
      cases s with
      | nil => simp [getline, getlines, hc]
      | cons d s => simp [getline, hc]

theorem getlines_length_le (delim : Char) (s : List Char) :
    (getlines delim s).length ≤ s.length := by
  induction s with
  | nil => simp [getlines]
  | cons c s ih =>
    simp only [getlines]
    split
    · simp only [List.length_cons]
      omega
    · split
      · simp
      · rename_i l ls heq
        rw [heq] at ih
        simp only [List.length_cons] at ih ⊢
        omega

theorem getlines_mem_length_le (delim : Char) (s : List Char) :
    ∀ l ∈ getlines delim s, l.length ≤ s.length := by
  induction s with
  | nil => simp [getlines]
  | cons c s ih =>
    intro l hl
    simp only [getlines] at hl
    split at hl
    · simp only [List.mem_cons] at hl
      rcases hl with rfl | hl
      · simp
      · have := ih l hl
        simp only [List.length_cons]
        omega
    · split at hl
      · simp only [List.mem_singleton] at hl
        subst hl
        simp
      · rename_i l1 ls heq
        rw [heq] at ih
        simp only [List.mem_cons] at hl
        rcases hl with rfl | hl
        · have := ih l1 (by simp)
          simp only [List.length_cons]
          omega
        · have := ih l (by simp [hl])
          simp only [List.length_cons]
          omega

/-- The cell loop past the first column, in closed form. -/
theorem read_cells_tail :
    ∀ (cells : List (List Char)) (idx : Nat) (lv : List Byte) (px : List Nat)
      (out : List (List Byte)),
      1 ≤ idx → idx + cells.length ≤ SIZE_MOD →
      (∀ e, stoi_all cells = .error e → read_cells cells idx lv px out = .error e)
        ∧ (∀ vals, stoi_all cells = .ok vals →
            ∃ i, read_cells cells idx lv px out = .ok (i, px ++ vals.map to_u32, out)) := by
  intro cells
  induction cells with
  | nil =>
    intro idx lv px out _ _
    refine ⟨fun e h => by simp [stoi_all] at h, fun vals h => ?_⟩
    simp only [stoi_all, Except.ok.injEq] at h
    subst h
    exact ⟨idx, by simp [read_cells]⟩
  | cons cell rest ih =>
    intro idx lv px out h1 hM
    have hne : idx ≠ 0 := by omega
    simp only [List.length_cons] at hM
    have hidx : (idx + 1) % SIZE_MOD = idx + 1 ∨ rest = [] := by
      cases rest with
      | nil => exact Or.inr rfl
      | cons c2 r2 =>
        left
        simp only [List.length_cons] at hM
        exact Nat.mod_eq_of_lt (by omega)
    cases hs : stoi cell with
    | error e0 =>
      refine ⟨fun e h => ?_, fun vals h => ?_⟩
      · simp only [stoi_all, hs, Except.error.injEq] at h
        subst h
        simp only [read_cells, hs]
      · simp [stoi_all, hs] at h
    | ok value =>
      rcases hidx with hidx | hnil
      · obtain ⟨ihe, iho⟩ := ih (idx + 1) lv (px ++ [to_u32 value]) out (by omega) (by omega)
        refine ⟨fun e h => ?_, fun vals h => ?_⟩
        · simp only [read_cells, hs, if_neg hne, hidx]
          apply ihe
          cases hr : stoi_all rest with
          | error e1 =>
            simp only [stoi_all, hs, hr, Except.error.injEq] at h
            rw [h]
          | ok vs => simp [stoi_all, hs, hr] at h
        · cases hr : stoi_all rest with
          | error e1 => simp [stoi_all, hs, hr] at h
          | ok vs =>
            simp only [stoi_all, hs, hr, Except.ok.injEq] at h
            subst h
            obtain ⟨i, hi⟩ := iho vs hr
            refine ⟨i, ?_⟩
            simp only [read_cells, hs, if_neg hne, hidx, hi]
            simp
      · subst hnil
        refine ⟨fun e h => by simp [stoi_all, hs] at h, fun vals h => ?_⟩
        simp only [stoi_all, hs, Except.ok.injEq] at h
        subst h
        exact ⟨(idx + 1) % SIZE_MOD, by simp [read_cells, hs, hne]⟩

/-- One pass of the line loop body, in closed form. -/
theorem read_cells_line (line : List Char) (out : List (List Byte))
    (hlen : (getlines ',' line).length ≤ SIZE_MOD) :
    (∀ e, parse_row line = .error e →
        read_cells (getlines ',' line) 0 (List.replicate num_classes 0) [] out = .error e)
      ∧ (∀ row, parse_row line = .ok row →
          ∃ i, read_cells (getlines ',' line) 0 (List.replicate num_classes 0) [] out
            = .ok (i, row.2, out ++ row.1.toList)) := by
  unfold parse_row
  cases hc : getlines ',' line with
  | nil =>
    refine ⟨fun e h => by simp at h, fun row h => ?_⟩
    simp only [Except.ok.injEq] at h
    subst h
    exact ⟨0, by simp [read_cells]⟩
  | cons cell rest =>
    rw [hc] at hlen
    simp only [List.length_cons] at hlen
    cases hs : stoi cell with
    | error e0 =>
      refine ⟨fun e h => ?_, fun row h => by simp [hs] at h⟩
      simp only [hs, Except.error.injEq] at h
      subst h
      simp only [read_cells, hs]
    | ok value =>
      have h1 : (0 + 1) % SIZE_MOD = 1 := by decide
      obtain ⟨terr, tok⟩ := read_cells_tail rest 1
        (to_one_hot (List.replicate num_classes 0) value) []
        (out ++ [to_one_hot (List.replicate num_classes 0) value]) (Nat.le_refl 1) (by omega)
      cases hr : stoi_all rest with
      | error e1 =>
        refine ⟨fun e h => ?_, fun row h => by simp [hs, hr] at h⟩
        simp only [hs, hr, Except.error.injEq] at h
        subst h
        simp only [read_cells, hs, if_true, h1]
        exact terr e1 hr
      | ok vs =>
        refine ⟨fun e h => by simp [hs, hr] at h, fun row h => ?_⟩
        simp only [hs, hr, Except.ok.injEq] at h
        subst h
        obtain ⟨i, hi⟩ := tok vs hr
        refine ⟨i, ?_⟩
        simp only [read_cells, hs, if_true, h1, hi]
        simp

/-- The line loop in closed form. -/
theorem read_lines_closed :
    ∀ (lines : List (List Char)) (n : Nat) (dim : Option Nat) (ol : List (List Byte))
      (oi : List (List Nat)),
      n < SIZE_MOD →
      (∀ line ∈ lines, (getlines ',' line).length ≤ SIZE_MOD) →
      (∀ e, parse_rows lines = .error e → read_lines lines n dim ol oi = .error e)
        ∧ (∀ rows, parse_rows lines = .ok rows →
            ∃ d, read_lines lines n dim ol oi
              = .ok { labels := ol ++ rows.filterMap (fun row => row.1),
                      images := oi ++ rows.map (fun row => row.2),
                      dim := d, n := (n + lines.length) % SIZE_MOD }) := by
  intro lines
  induction lines with
  | nil =>
    intro n dim ol oi hn _
    refine ⟨fun e h => by simp [parse_rows] at h, fun rows h => ?_⟩
    simp only [parse_rows, Except.ok.injEq] at h
    subst h
    refine ⟨dim.map (fun d => (d + SIZE_MOD - 1) % SIZE_MOD), ?_⟩
    simp [read_lines, Nat.mod_eq_of_lt hn]
  | cons line rest ih =>
    intro n dim ol oi hn hcells
    obtain ⟨cerr, cok⟩ := read_cells_line line ol (hcells line (by simp))
    have hrest : ∀ l ∈ rest, (getlines ',' l).length ≤ SIZE_MOD :=
      fun l hl => hcells l (by simp [hl])
    have hn1 : (n + 1) % SIZE_MOD < SIZE_MOD := Nat.mod_lt _ (by decide)
    have hmod : ((n + 1) % SIZE_MOD + rest.length) % SIZE_MOD
        = (n + (line :: rest).length) % SIZE_MOD := by
      simp only [List.length_cons]
      rw [Nat.add_mod, Nat.mod_mod, ← Nat.add_mod]
      congr 1
      omega
    cases hp : parse_row line with
    | error e0 =>
      refine ⟨fun e h => ?_, fun rows h => by simp [parse_rows, hp] at h⟩
      simp only [parse_rows, hp, Except.error.injEq] at h
      subst h
      simp only [read_lines, cerr e0 hp]
    | ok row =>
      obtain ⟨i, hi⟩ := cok row hp
      cases hr : parse_rows rest with
      | error e1 =>
        refine ⟨fun e h => ?_, fun rows h => by simp [parse_rows, hp, hr] at h⟩
        simp only [parse_rows, hp, hr, Except.error.injEq] at h
        subst h
        simp only [read_lines, hi]
        exact (ih _ _ _ _ hn1 hrest).1 e1 hr
      | ok rows1 =>
        refine ⟨fun e h => by simp [parse_rows, hp, hr] at h, fun rows h => ?_⟩
        simp only [parse_rows, hp, hr, Except.ok.injEq] at h
        subst h
        obtain ⟨d, hd⟩ := (ih ((n + 1) % SIZE_MOD) (if n = 0 then some i else dim)
          (ol ++ row.1.toList) (oi ++ [row.2]) hn1 hrest).2 rows1 hr
        refine ⟨d, ?_⟩
        simp only [read_lines, hi, hd, hmod]
        cases hrow : row.1 <;> simp [hrow]

/-- What `load_csv` returns, in closed form, for a file of fewer than `2^64`
characters: the rows of every line after the first, or the first exception. -/
theorem load_csv_closed (fs : String → Option (List Char)) (filename : String)
    (file : List Char) (hf : fs filename = some file) (hlen : file.length < SIZE_MOD) :
    (∀ e, parse_rows ((getlines '\n' file).drop 1) = .error e →
        load_csv fs filename = .error e)
      ∧ (∀ rows, parse_rows ((getlines '\n' file).drop 1) = .ok rows →
          ∃ d, load_csv fs filename
            = .ok { labels := rows.filterMap (fun row => row.1),
                    images := rows.map (fun row => row.2),
                    dim := d, n := ((getlines '\n' file).drop 1).length }) := by
  have hcells : ∀ line ∈ (getlines '\n' file).drop 1,
      (getlines ',' line).length ≤ SIZE_MOD := by
    intro line hl
    have h1 := getlines_length_le ',' line
    have h2 := getlines_mem_length_le '\n' file line (List.mem_of_mem_drop hl)
    omega
  have hcount : ((getlines '\n' file).drop 1).length < SIZE_MOD := by
    have := getlines_length_le '\n' file
    simp only [List.length_drop]
    omega
  obtain ⟨herr, hok⟩ := read_lines_closed ((getlines '\n' file).drop 1) 0 none [] []
    (by decide) hcells
  refine ⟨fun e h => ?_, fun rows h => ?_⟩
  · simp only [load_csv, hf]
    exact herr e h
  · obtain ⟨d, hd⟩ := hok rows h
    refine ⟨d, ?_⟩
    simp only [load_csv, hf, hd, Nat.zero_add, Nat.mod_eq_of_lt hcount, List.nil_append]

theorem parse_rows_length :
    ∀ (lines : List (List Char)) (rows : List (Option (List Byte) × List Nat)),
      parse_rows lines = .ok rows → rows.length = lines.length := by
  intro lines
  induction lines with
  | nil =>
    intro rows h
    simp only [parse_rows, Except.ok.injEq] at h
    subst h
    rfl
  | cons line rest ih =>
    intro rows h
    cases hp : parse_row line with
    | error e => simp [parse_rows, hp] at h
    | ok row =>
      cases hr : parse_rows rest with
      | error e => simp [parse_rows, hp, hr] at h
      | ok rows1 =>
        simp only [parse_rows, hp, hr, Except.ok.injEq] at h
        subst h
        simp [ih rows1 hr]

theorem getlines_eq_nil_iff (delim : Char) (s : List Char) :
    getlines delim s = [] ↔ s = [] := by
  cases s with
  | nil => simp [getlines]
  | cons c s =>
    simp only [getlines]
    constructor
    · intro h
      split at h
      · cases h
      · split at h <;> cases h
    · intro h
      cases h

theorem to_one_hot_replicate (L : Int) :
    to_one_hot (List.replicate num_classes 0) L = one_hot num_classes L := by
  by_cases h : 0 ≤ L ∧ L < 10
  · obtain ⟨n, rfl⟩ := Int.eq_ofNat_of_zero_le h.1
    have hn : n < 10 := by omega
    interval_cases n <;> rfl
  · have hz : one_hot num_classes L = List.replicate num_classes 0 := by
      have e : ∀ k : Nat, k < 10 → (if (k : Int) = L then (1 : Byte) else 0) = 0 := by
        intro k hk
        rw [if_neg]
        omega
      apply List.ext_getElem?
      intro k
      by_cases hk : k < 10
      · simp only [one_hot, num_classes, List.getElem?_map, List.getElem?_range hk,
          Option.map_some', e k hk]
        interval_cases k <;> rfl
      · simp [one_hot, num_classes, List.getElem?_eq_none, Nat.le_of_not_lt hk]
    rw [hz]
    unfold to_one_hot
    rw [if_neg]
    rintro ⟨h0, h1⟩
    apply h
    simp only [List.length_replicate, num_classes] at h1
    omega

theorem one_hot_getElem (size : Nat) (L : Int) :
    (one_hot size L).length = size
      ∧ ∀ k : Nat, k < size → (one_hot size L)[k]? = some (if (k : Int) = L then 1 else 0) := by
  refine ⟨by simp [one_hot], fun k hk => ?_⟩
  simp only [one_hot, List.getElem?_map, List.getElem?_range hk, Option.map_some']

theorem parse_row_label (line : List Char) (row : Option (List Byte) × List Nat)
    (h : parse_row line = .ok row) :
    row.1 = row_label line ∧ (row.1 = none ↔ line = []) := by
  unfold parse_row at h
  unfold row_label
  cases hc : getlines ',' line with
  | nil =>
    rw [hc] at h
    simp only [Except.ok.injEq] at h
    subst h
    exact ⟨rfl, by simp [(getlines_eq_nil_iff ',' line).mp hc]⟩
  | cons cell rest =>
    have hne : line ≠ [] := fun e => by
      rw [(getlines_eq_nil_iff ',' line).mpr e] at hc
      cases hc
    rw [hc] at h
    cases hs : stoi cell with
    | error e => simp [hs] at h
    | ok value =>
      cases hr : stoi_all rest with
      | error e => simp [hs, hr] at h
      | ok vs =>
        simp only [hs, hr, Except.ok.injEq] at h
        subst h
        simp only [to_one_hot_replicate, hs]
        exact ⟨trivial, by simp [hne]⟩

theorem parse_rows_labels :
    ∀ (lines : List (List Char)) (rows : List (Option (List Byte) × List Nat)),
      parse_rows lines = .ok rows →
      rows.filterMap (fun row => row.1) = lines.filterMap row_label
        ∧ (rows.filterMap (fun row => row.1)).length
            = (lines.filter (fun l => !l.isEmpty)).length := by
  intro lines
  induction lines with
  | nil =>
    intro rows h
    simp only [parse_rows, Except.ok.injEq] at h
    subst h
    exact ⟨rfl, rfl⟩
  | cons line rest ih =>
    intro rows h
    cases hp : parse_row line with
    | error e => simp [parse_rows, hp] at h
    | ok row =>
      cases hr : parse_rows rest with
      | error e => simp [parse_rows, hp, hr] at h
      | ok rows1 =>
        simp only [parse_rows, hp, hr, Except.ok.injEq] at h
        subst h
        obtain ⟨i1, i2⟩ := ih rows1 hr
        obtain ⟨l1, l2⟩ := parse_row_label line row hp
        constructor
        · simp only [List.filterMap_cons, ← l1, i1]
        · cases hrow : row.1 with
          | none =>
            have hl : line = [] := l2.mp hrow
            subst hl
            simp [List.filterMap_cons, hrow, i2]
          | some lv =>
            have hl : line ≠ [] := fun e => by
              rw [l2.mpr e] at hrow
              cases hrow
            have hb : (!line.isEmpty) = true := by
              cases line with
              | nil => exact absurd rfl hl
              | cons c l => rfl
            simp [List.filterMap_cons, hrow, i2, List.filter_cons, hb]

/-- What a successful `load_csv` returns for a file of fewer than `2^64`
characters: one image row per line after the header, `n` counting them, and one
label vector per non-empty line after the header. -/
theorem load_csv_shape (fs : String → Option (List Char)) (filename : String)
    (file : List Char) (ds : Dataset)
    (hf : fs filename = some file) (hlen : file.length < SIZE_MOD)
    (h : load_csv fs filename = .ok ds) :
    ds.images.length = ((getlines '\n' file).drop 1).length
      ∧ ds.n = ((getlines '\n' file).drop 1).length
      ∧ ds.labels = ((getlines '\n' file).drop 1).filterMap row_label
      ∧ ds.labels.length
          = (((getlines '\n' file).drop 1).filter (fun l => !l.isEmpty)).length := by
  obtain ⟨herr, hok⟩ := load_csv_closed fs filename file hf hlen
  cases hp : parse_rows ((getlines '\n' file).drop 1) with
  | error e =>
    rw [herr e hp] at h
    cases h
  | ok rows =>
    obtain ⟨d, hd⟩ := hok rows hp
    rw [hd] at h
    injection h with h
    subst h
    obtain ⟨p1, p2⟩ := parse_rows_labels _ rows hp
    exact ⟨by simp [parse_rows_length _ rows hp], rfl, p1, p2⟩

/-- C18 (evaluation at the failing input): the file `label,p0 / (empty line) /
1,5` is accepted; it has 2 lines after the header, `n = 2` and 2 image rows, but
a single label vector, and `labels[0]` (the one-hot vector of 1, from the second
data line) stands beside `images[0]` (the empty row of the empty line). -/
theorem load_csv_blank_line_misaligned :
    ∃ ds : Dataset, load_csv blank_line_csv "train.csv" = .ok ds
      ∧ ((getlines '\n' "label,p0\n\n1,5\n".toList).drop 1).length = 2
      ∧ ds.n = 2 ∧ ds.images.length = 2 ∧ ds.labels.length = 1
      ∧ ds.labels.length ≠ ds.images.length
      ∧ ds.images[0]? = some [] ∧ ds.images[1]? = some [5]
      ∧ ds.labels[0]? = some [0, 1, 0, 0, 0, 0, 0, 0, 0, 0] := by
  refine ⟨{ labels := [[0, 1, 0, 0, 0, 0, 0, 0, 0, 0]], images := [[], [5]],
            dim := some (2 ^ 64 - 1), n := 2 }, rfl, rfl, rfl, rfl, rfl, by decide, rfl, rfl, rfl⟩

/-- C19: `to_one_hot` sets entry `L` to 1 and keeps every other entry when
`0 ≤ L < v.length`, and returns `v` unchanged otherwise; the label vectors a
successful `load_csv` stores are, in order, those of the lines that have a first
cell, and for a line whose first cell reads `L` that vector has length 10 and is
1 at index `L` and 0 elsewhere (all zeros when `L` is not in `0..9`). -/
theorem to_one_hot_spec :
    (∀ (v : List Byte) (L : Int),
        (0 ≤ L ∧ L < v.length →
            (to_one_hot v L).length = v.length
              ∧ (to_one_hot v L)[L.toNat]? = some 1
              ∧ ∀ k, k ≠ L.toNat → (to_one_hot v L)[k]? = v[k]?)
          ∧ (¬ (0 ≤ L ∧ L < v.length) → to_one_hot v L = v))
      ∧ (∀ (fs : String → Option (List Char)) (filename : String) (file : List Char)
          (ds : Dataset), fs filename = some file → file.length < SIZE_MOD →
          load_csv fs filename = .ok ds →
          ds.labels = ((getlines '\n' file).drop 1).filterMap row_label)
      ∧ (∀ (line cell : List Char) (rest : List (List Char)) (L : Int),
          getlines ',' line = cell :: rest → stoi cell = .ok L →
          ∃ lv, row_label line = some lv ∧ lv = to_one_hot (List.replicate num_classes 0) L
            ∧ lv.length = 10
            ∧ ∀ k : Nat, k < 10 → lv[k]? = some (if (k : Int) = L then 1 else 0)) := by
  refine ⟨fun v L => ⟨fun h => ?_, fun h => ?_⟩, ?_, ?_⟩
  · have hlt : L.toNat < v.length := by omega
    have hc : L ≥ 0 ∧ L.toNat < v.length := ⟨h.1, hlt⟩
    simp only [to_one_hot, if_pos hc]
    refine ⟨by simp, by simp [List.getElem?_set, hlt], fun k hk => ?_⟩
    rw [List.getElem?_set_ne (fun e => hk e.symm)]
  · unfold to_one_hot
    rw [if_neg]
    rintro ⟨h0, h1⟩
    exact h ⟨h0, by omega⟩
  · intro fs filename file ds hf hlen hok
    exact (load_csv_shape fs filename file ds hf hlen hok).2.2.1
  · intro line cell rest L hc hs
    refine ⟨one_hot num_classes L, ?_, (to_one_hot_replicate L).symm,
      (one_hot_getElem num_classes L).1, (one_hot_getElem num_classes L).2⟩
    simp only [row_label, hc, hs]

/-- C19, instance: `to_one_hot` on three zeros with label 1 and with label 3,
and the label vector stored for the data line `1,5`. -/
theorem to_one_hot_spec_witness :
    (to_one_hot [0, 0, 0] 1)[1]? = some 1
      ∧ to_one_hot [0, 0, 0] 3 = [0, 0, 0]
      ∧ (∃ lv, row_label "1,5".toList = some lv ∧ lv.length = 10
          ∧ lv[1]? = some (if ((1 : Nat) : Int) = 1 then 1 else 0)) := by
  refine ⟨((to_one_hot_spec.1 [0, 0, 0] 1).1 (by decide)).2.1,
    (to_one_hot_spec.1 [0, 0, 0] 3).2 (by decide), ?_⟩
  obtain ⟨lv, h1, -, h2, h3⟩ := to_one_hot_spec.2.2 "1,5".toList "1".toList ["5".toList] 1 rfl rfl
  exact ⟨lv, h1, h2, h3 1 (by decide)⟩

/-! ## The CSV exporter: addressing -/

theorem digitChar_isDigit (d : Nat) (hd : d < 10) : (Nat.digitChar d).isDigit = true := by
  interval_cases d <;> rfl

theorem toDigitsCore_all_digit :
    ∀ (fuel n : Nat) (ds : List Char), (∀ c ∈ ds, c.isDigit = true) →
      ∀ c ∈ Nat.toDigitsCore 10 fuel n ds, c.isDigit = true := by
  intro fuel
  induction fuel with
  | zero =>
    intro n ds h c hc
    exact h c hc
  | succ fuel ih =>
    intro n ds h c hc
    have hd : ∀ c ∈ Nat.digitChar (n % 10) :: ds, c.isDigit = true := by
      intro c hc
      rcases List.mem_cons.mp hc with rfl | hc
      · exact digitChar_isDigit _ (Nat.mod_lt _ (by decide))
      · exact h c hc
    simp only [Nat.toDigitsCore] at hc
    split at hc
    · exact hd c hc
    · exact ih _ _ hd c hc

theorem toDigitsCore_ne_nil :
    ∀ (fuel n : Nat) (ds : List Char), ds ≠ [] → Nat.toDigitsCore 10 fuel n ds ≠ [] := by
  intro fuel
  induction fuel with
  | zero =>
    intro n ds h
    exact h
  | succ fuel ih =>
    intro n ds _
    simp only [Nat.toDigitsCore]
    split
    · simp
    · exact ih _ _ (by simp)

theorem put_nat_all_digit (n : Nat) : ∀ c ∈ put_nat n, c.isDigit = true :=
  toDigitsCore_all_digit (n + 1) n [] (by simp)

theorem put_nat_ne_nil (n : Nat) : put_nat n ≠ [] := by
  unfold put_nat Nat.toDigits
  simp only [Nat.toDigitsCore]
  split
  · simp
  · exact toDigitsCore_ne_nil _ _ _ (by simp)

/-- A field is plain when it is not empty and holds no comma and no end of
line. -/
theorem plain_of_digits (f : List Char) (hne : f ≠ [])
    (h : ∀ c ∈ f, c.isDigit = true) : f ≠ [] ∧ ',' ∉ f ∧ '\n' ∉ f :=
  ⟨hne, fun hc => absurd (h _ hc) (by decide), fun hc => absurd (h _ hc) (by decide)⟩

theorem format_fixed6_plain (v : ℚ) :
    format_fixed6 v ≠ [] ∧ ',' ∉ format_fixed6 v ∧ '\n' ∉ format_fixed6 v := by
  have key : ∀ c ∈ format_fixed6 v, c = '-' ∨ c = '.' ∨ c = '0' ∨ c.isDigit = true := by
    intro c hc
    simp only [format_fixed6, List.mem_append, List.mem_cons, List.mem_replicate] at hc
    rcases hc with (hc | hc) | hc | hc | hc
    · split at hc
      · simp only [List.mem_singleton] at hc
        exact Or.inl hc
      · simp at hc
    · exact Or.inr (Or.inr (Or.inr (put_nat_all_digit _ c hc)))
    · exact Or.inr (Or.inl hc)
    · exact Or.inr (Or.inr (Or.inl hc.2))
    · exact Or.inr (Or.inr (Or.inr (put_nat_all_digit _ c hc)))
  refine ⟨by simp [format_fixed6], fun hc => ?_, fun hc => ?_⟩
  · rcases key _ hc with h | h | h | h <;> exact absurd h (by decide)
  · rcases key _ hc with h | h | h | h <;> exact absurd h (by decide)

theorem intercalate_cons (a : List Char) (rest : List (List Char)) :
    [','].intercalate (a :: rest) = a ++ rest.flatMap (fun f => ',' :: f) := by
  induction rest generalizing a with
  | nil => simp [List.intercalate, List.intersperse]
  | cons b rest ih =>
    have := ih b
    simp only [List.intercalate, List.intersperse, List.flatten_cons, List.flatMap_cons] at this ⊢
    rw [this]
    simp

theorem put_cells_some (vs : List ℚ) :
    put_cells (vs.map some) = some (vs.flatMap fun v => ',' :: format_fixed6 v) := by
  induction vs with
  | nil => rfl
  | cons v vs ih => simp [put_cells, ih, List.flatMap_cons]

theorem export_header_eq (ds : MnistDataset) (hdim : ds.rows * ds.cols < SIZE_MOD) :
    export_header ds = csv_line (header_fields ds) := by
  simp only [export_header, csv_line, header_fields, intercalate_cons,
    MnistDataset.image_size, Nat.mod_eq_of_lt hdim, List.flatMap, List.map_map]
  rfl

theorem export_row_reads_eq (ds : MnistDataset) (idx : Nat) (hwf : ds.well_formed)
    (hidx : idx < ds.num_images) :
    export_row_reads ds idx = (row_values ds idx).map some := by
  obtain ⟨himg, -, hsz, hdim, -⟩ := hwf
  obtain ⟨hb, hle⟩ := view_base ds.num_images ds.rows ds.cols idx ds.images.length
    (by omega) (Nat.le_of_eq himg.symm) hidx
  have hp : ds.image_ptr idx = idx * ds.rows * ds.cols := hb
  apply List.ext_getElem?
  intro k
  by_cases hk : k < ds.rows * ds.cols
  · have hk2 : k < ds.image_size := by
      simp only [MnistDataset.image_size, Nat.mod_eq_of_lt hdim]
      exact hk
    have hin : idx * ds.rows * ds.cols + k < ds.images.length := by omega
    simp only [export_row_reads, row_values, List.getElem?_map, List.getElem?_range hk2,
      Option.map_some', hp, List.getElem?_take_of_lt hk, List.getElem?_drop,
      List.getElem?_eq_getElem hin]
  · have h1 : (export_row_reads ds idx).length ≤ k := by
      simp only [export_row_reads, List.length_map, List.length_range,
        MnistDataset.image_size, Nat.mod_eq_of_lt hdim]
      omega
    have h2 : ((row_values ds idx).map some).length ≤ k := by
      simp only [row_values, List.length_map, List.length_take]
      omega
    rw [List.getElem?_eq_none h1, List.getElem?_eq_none h2]

theorem export_row_eq (ds : MnistDataset) (idx : Nat) (hwf : ds.well_formed)
    (hidx : idx < ds.num_images) :
    export_row ds idx = some (csv_line (row_fields ds idx)) := by
  have hl : idx < ds.labels.length := by
    rw [hwf.2.1]
    exact hidx
  simp only [export_row, List.getElem?_eq_getElem hl, export_row_reads_eq ds idx hwf hidx,
    put_cells_some, csv_line, row_fields, intercalate_cons, List.getD_eq_getElem?_getD,
    Option.getD_some, List.flatMap, List.map_map]
  simp [Function.comp_def]

theorem export_rows_eq (ds : MnistDataset) (hwf : ds.well_formed) :
    ∀ (k idx : Nat), idx + k ≤ ds.num_images →
      export_rows ds k idx
        = some (((List.range k).map fun j => csv_line (row_fields ds (idx + j))).flatten) := by
  intro k
  induction k with
  | zero => intro idx _; rfl
  | succ k ih =>
    intro idx h
    simp only [export_rows, export_row_eq ds idx hwf (by omega), ih (idx + 1) (by omega)]
    rw [List.range_succ_eq_map]
    simp [List.map_map, Function.comp_def, Nat.add_assoc, Nat.add_comm 1]

theorem export_count_le (ds : MnistDataset) (max_rows : Nat) :
    export_count ds max_rows ≤ ds.num_images := by
  unfold export_count
  split
  · exact Nat.min_le_left _ _
  · exact Nat.le_refl _

/-- The text `export_csv` writes for a well-formed dataset: the header line and
one line per exported image, as delimited text. -/
theorem export_csv_eq (writable : String → Bool) (ds : MnistDataset) (out_path : String)
    (max_rows : Nat) (hw : writable out_path = true) (hwf : ds.well_formed) :
    export_csv writable ds out_path max_rows
      = .ok (some (csv_text (header_fields ds
          :: (List.range (export_count ds max_rows)).map (row_fields ds)))) := by
  have e := export_rows_eq ds hwf (export_count ds max_rows) 0
    (by simpa using export_count_le ds max_rows)
  simp only [Nat.zero_add] at e
  have hN : (if max_rows ≠ 0 then min ds.num_images max_rows else ds.num_images)
      = export_count ds max_rows := rfl
  simp only [export_csv, hw, Bool.true_eq_false, if_false, hN, e,
    export_header_eq ds hwf.2.2.2.1, csv_text, List.map_cons, List.flatten_cons, List.map_map,
    Function.comp_def]

theorem row_values_length (ds : MnistDataset) (idx : Nat) (hwf : ds.well_formed)
    (hidx : idx < ds.num_images) : (row_values ds idx).length = ds.rows * ds.cols := by
  obtain ⟨himg, -, hsz, hdim, -⟩ := hwf
  obtain ⟨-, hle⟩ := view_base ds.num_images ds.rows ds.cols idx ds.images.length
    (by omega) (Nat.le_of_eq himg.symm) hidx
  simp only [row_values, List.length_take, List.length_drop]
  omega

theorem header_fields_plain (ds : MnistDataset) :
    ∀ f ∈ header_fields ds, f ≠ [] ∧ ',' ∉ f ∧ '\n' ∉ f := by
  intro f hf
  simp only [header_fields, List.mem_cons, List.mem_map, List.mem_range] at hf
  rcases hf with rfl | ⟨i, -, rfl⟩
  · decide
  · have hp := plain_of_digits (put_nat i) (put_nat_ne_nil i) (put_nat_all_digit i)
    refine ⟨by simp, ?_, ?_⟩
    · simp only [List.mem_cons, not_or]
      exact ⟨by decide, hp.2.1⟩
    · simp only [List.mem_cons, not_or]
      exact ⟨by decide, hp.2.2⟩

theorem row_fields_plain (ds : MnistDataset) (idx : Nat) :
    ∀ f ∈ row_fields ds idx, f ≠ [] ∧ ',' ∉ f ∧ '\n' ∉ f := by
  intro f hf
  simp only [row_fields, List.mem_cons, List.mem_map] at hf
  rcases hf with rfl | ⟨v, -, rfl⟩
  · exact plain_of_digits _ (put_nat_ne_nil _) (put_nat_all_digit _)
  · exact format_fixed6_plain v

/-- The layout of the exported text, on the datasets where the exporter stays
inside its vectors: for a dataset that satisfies the invariants of the data
model and a writable path, `export_csv` writes delimited text made of a header line with the
`1 + rows*cols` fields `label, p0, ..., p(rows*cols-1)` and one data line per
exported image, in index order; data line `idx` has the decimal label of image
`idx` as first field and `rows*cols` further fields, the formatted values of
that image; there are `num_images` data lines when `max_rows` is 0 and
`min(num_images, max_rows)` otherwise; no field is empty or holds a separator. -/
theorem export_csv_layout (writable : String → Bool) (ds : MnistDataset)
    (out_path : String) (max_rows : Nat) (hw : writable out_path = true)
    (hwf : ds.well_formed) :
    ∃ (header : List (List Char)) (rows : List (List (List Char))),
      export_csv writable ds out_path max_rows = .ok (some (csv_text (header :: rows)))
        ∧ header = "label".toList :: (List.range (ds.rows * ds.cols)).map (fun i =>
            'p' :: put_nat i)
        ∧ header.length = 1 + ds.rows * ds.cols
        ∧ rows.length = (if max_rows = 0 then ds.num_images else min ds.num_images max_rows)
        ∧ (∀ idx, idx < rows.length → ∃ (label : Byte) (cells : List (List Char)),
            ds.labels[idx]? = some label ∧ rows[idx]? = some (put_nat label.val :: cells)
              ∧ cells.length = ds.rows * ds.cols
              ∧ cells = (row_values ds idx).map format_fixed6)
        ∧ (∀ fields ∈ header :: rows, ∀ f ∈ fields, f ≠ [] ∧ ',' ∉ f ∧ '\n' ∉ f) := by
  have hN := export_count_le ds max_rows
  refine ⟨header_fields ds, (List.range (export_count ds max_rows)).map (row_fields ds),
    export_csv_eq writable ds out_path max_rows hw hwf, rfl, ?_, ?_, ?_, ?_⟩
  · simp [header_fields, Nat.add_comm]
  · simp only [List.length_map, List.length_range, export_count]
    by_cases h : max_rows = 0 <;> simp [h]
  · intro idx hidx
    simp only [List.length_map, List.length_range] at hidx
    have hi : idx < ds.num_images := by omega
    have hl : idx < ds.labels.length := by
      rw [hwf.2.1]
      exact hi
    refine ⟨ds.labels[idx], (row_values ds idx).map format_fixed6,
      List.getElem?_eq_getElem hl, ?_, ?_, rfl⟩
    · rw [List.getElem?_map, List.getElem?_range hidx]
      simp [row_fields, List.getD_eq_getElem?_getD, List.getElem?_eq_getElem hl]
    · rw [List.length_map, row_values_length ds idx hwf hi]
  · intro fields hfields
    rcases List.mem_cons.mp hfields with rfl | hrow
    · exact header_fields_plain ds
    · obtain ⟨idx, -, rfl⟩ := List.mem_map.mp hrow
      exact row_fields_plain ds idx

/-- The layout of the exported text, instance: the two-image dataset exported
with `max_rows = 1`: the header `label,p0,p1` and the single data line of image
0, whose first field is `7`. -/
theorem export_csv_layout_witness :
    export_csv (fun _ => true) small_ds "out.csv" 1
      = .ok (some (csv_text [["label".toList, "p0".toList, "p1".toList],
          ["7".toList, format_fixed6 255, format_fixed6 51]])) := by
  obtain ⟨header, rows, h1, h2, -, h4, h5, -⟩ :=
    export_csv_layout (fun _ => true) small_ds "out.csv" 1 rfl small_ds_well_formed
  have hlen : rows.length = 1 := h4
  obtain ⟨label, cells, hl, hr, -, hc⟩ := h5 0 (by omega)
  have hlab : label = 7 := by
    have e : small_ds.labels[0]? = some 7 := rfl
    rw [e] at hl
    injection hl with hl
    exact hl.symm
  have hrows : rows = [put_nat label.val :: cells] := by
    match rows, hlen, hr with
    | [x], _, hr =>
      simp only [List.getElem?_cons_zero, Option.some.injEq] at hr
      rw [hr]
  rw [h1, h2, hrows, hc, hlab]
  rfl

theorem put_cells_none_cons (rest : List (Option ℚ)) : put_cells (none :: rest) = none := rfl

/-- The first read of a data row is `img[0]`, when `image_size()` is not 0. -/
theorem export_row_reads_head (ds : MnistDataset) (idx : Nat) (h : 0 < ds.image_size) :
    ∃ rest, export_row_reads ds idx = ds.images[ds.image_ptr idx + 0]? :: rest := by
  obtain ⟨k, hk⟩ : ∃ k, ds.image_size = k + 1 := ⟨ds.image_size - 1, by omega⟩
  refine ⟨((List.range k).map Nat.succ).map fun i => ds.images[ds.image_ptr idx + i]?, ?_⟩
  rw [export_row_reads, hk, List.range_succ_eq_map, List.map_cons]

/-- A data row whose first read is outside the buffer is not written. -/
theorem export_row_outside (ds : MnistDataset) (idx : Nat) (h : 0 < ds.image_size)
    (hread : ds.images[ds.image_ptr idx + 0]? = none) : export_row ds idx = none := by
  obtain ⟨rest, hrest⟩ := export_row_reads_head ds idx h
  unfold export_row
  cases ds.labels[idx]? with
  | none => rfl
  | some label =>
    simp only []
    rw [hrest, hread, put_cells_none_cons]

/-- The export stops at a first data row that reads outside the buffer. -/
theorem export_csv_outside (writable : String → Bool) (ds : MnistDataset)
    (out_path : String) (max_rows : Nat) (hw : writable out_path = true)
    (hcount : 0 < export_count ds max_rows) (hrow : export_row ds 0 = none) :
    export_csv writable ds out_path max_rows = .ok none := by
  obtain ⟨k, hk⟩ : ∃ k, export_count ds max_rows = k + 1 :=
    ⟨export_count ds max_rows - 1, by omega⟩
  have hN : (if max_rows ≠ 0 then min ds.num_images max_rows else ds.num_images)
      = export_count ds max_rows := rfl
  simp only [export_csv, hw, Bool.true_eq_false, if_false, hN, hk, export_rows, hrow]

/-- C15 (evaluation at the failing input): the archive whose image header
declares 4 x 2^31 x 2^31 loads as a dataset with `num_images = 4`,
`image_size() = 2^62` and an empty pixel buffer; `export_csv` on that dataset,
for every `max_rows`, reads `img[0]` of image 0 outside the buffer, so no text
with one complete data line per exported image is written. -/
theorem export_csv_outside_buffer_on_overflow (max_rows : Nat) :
    load_mnist enough_memory overflow_fs "images" "labels" true = .ok overflow_ds
      ∧ overflow_ds.num_images = 4 ∧ overflow_ds.image_size = 2 ^ 62
      ∧ overflow_ds.images.length = 0
      ∧ 0 < export_count overflow_ds max_rows
      ∧ overflow_ds.images[overflow_ds.image_ptr 0 + 0]? = none
      ∧ export_row overflow_ds 0 = none
      ∧ export_csv (fun _ => true) overflow_ds "out.csv" max_rows = .ok none := by
  have hsize : 0 < overflow_ds.image_size := by decide
  have hread : overflow_ds.images[overflow_ds.image_ptr 0 + 0]? = none := rfl
  have hrow : export_row overflow_ds 0 = none := export_row_outside overflow_ds 0 hsize hread
  have hcount : 0 < export_count overflow_ds max_rows := by
    have h4 : overflow_ds.num_images = 4 := rfl
    unfold export_count
    split <;> omega
  exact ⟨rfl, rfl, by decide, rfl, hcount, hread, hrow,
    export_csv_outside (fun _ => true) overflow_ds "out.csv" max_rows rfl hcount hrow⟩

/-! ## Reading back the exported text -/

theorem getlines_cons_ne (delim c : Char) (s : List Char) (hc : c ≠ delim) :
    getlines delim (c :: s) = match getlines delim s with
      | [] => [[c]]
      | l :: ls => (c :: l) :: ls := by
  rw [getlines, if_neg hc]

theorem getlines_append_delim (delim : Char) (l rest : List Char) (h : delim ∉ l) :
    getlines delim (l ++ delim :: rest) = l :: getlines delim rest := by
  induction l with
  | nil => simp [getlines]
  | cons c l ih =>
    simp only [List.mem_cons, not_or] at h
    have hc : c ≠ delim := fun e => h.1 e.symm
    show getlines delim (c :: (l ++ delim :: rest)) = _
    rw [getlines_cons_ne delim c _ hc, ih h.2]

theorem getlines_single (delim : Char) (l : List Char) (h : delim ∉ l) (hne : l ≠ []) :
    getlines delim l = [l] := by
  induction l with
  | nil => exact absurd rfl hne
  | cons c l ih =>
    simp only [List.mem_cons, not_or] at h
    have hc : c ≠ delim := fun e => h.1 e.symm
    rw [getlines_cons_ne delim c _ hc]
    cases l with
    | nil => rfl
    | cons d l => rw [ih h.2 (by simp)]

theorem getlines_intercalate (fields : List (List Char))
    (h : ∀ f ∈ fields, f ≠ [] ∧ ',' ∉ f) :
    getlines ',' ([','].intercalate fields) = fields := by
  induction fields with
  | nil => rfl
  | cons a rest ih =>
    cases rest with
    | nil =>
      simp only [List.intercalate, List.intersperse, List.flatten_cons, List.flatten_nil,
        List.append_nil]
      exact getlines_single ',' a (h a (by simp)).2 (h a (by simp)).1
    | cons b rest =>
      have hb := ih (fun f hf => h f (by simp [hf]))
      rw [intercalate_cons] at hb ⊢
      rw [List.flatMap_cons, List.cons_append, getlines_append_delim ',' a _ (h a (by simp)).2,
        hb]

theorem intercalate_no_newline (fields : List (List Char))
    (h : ∀ f ∈ fields, '\n' ∉ f) : '\n' ∉ [','].intercalate fields := by
  cases fields with
  | nil => simp [List.intercalate, List.intersperse]
  | cons a rest =>
    rw [intercalate_cons]
    simp only [List.mem_append, List.mem_flatMap, List.mem_cons, not_or, not_exists, not_and]
    refine ⟨h a (by simp), fun f hf => ⟨by decide, h f (by simp [hf])⟩⟩

theorem getlines_csv_text (lines : List (List (List Char)))
    (h : ∀ fields ∈ lines, ∀ f ∈ fields, '\n' ∉ f) :
    getlines '\n' (csv_text lines) = lines.map fun fields => [','].intercalate fields := by
  induction lines with
  | nil => rfl
  | cons fields rest ih =>
    have hr := ih (fun fs hfs => h fs (by simp [hfs]))
    simp only [csv_text, List.map_cons, List.flatten_cons, csv_line, List.append_assoc,
      List.singleton_append] at hr ⊢
    rw [getlines_append_delim '\n' _ _ (intercalate_no_newline fields (h fields (by simp))), hr]

theorem stoi_put_nat_byte (b : Byte) : stoi (put_nat b.val) = .ok (b.val : Int) := by
  obtain ⟨n, hn⟩ := b
  simp only
  interval_cases n <;> rfl

theorem stoi_all_map {α : Type} (g : α → List Char) (f : α → Int) (vs : List α)
    (h : ∀ v ∈ vs, stoi (g v) = .ok (f v)) : stoi_all (vs.map g) = .ok (vs.map f) := by
  induction vs with
  | nil => rfl
  | cons v vs ih =>
    simp only [List.map_cons, stoi_all, h v (by simp), ih (fun w hw => h w (by simp [hw]))]

theorem parse_rows_map {α : Type} (g : α → List Char)
    (f : α → Option (List Byte) × List Nat) (xs : List α)
    (h : ∀ x ∈ xs, parse_row (g x) = .ok (f x)) : parse_rows (xs.map g) = .ok (xs.map f) := by
  induction xs with
  | nil => rfl
  | cons x xs ih =>
    simp only [List.map_cons, parse_rows, h x (by simp), ih (fun w hw => h w (by simp [hw]))]

theorem stoi_zero_point (rest : List Char) : stoi ('0' :: '.' :: rest) = .ok 0 := rfl

theorem stoi_one_point (rest : List Char) : stoi ('1' :: '.' :: rest) = .ok 1 := rfl

theorem round6_floor (v : ℚ) (h0 : 0 ≤ v) :
    ((⌊|v| * 1000000⌋.toNat : ℕ) : ℚ) ≤ v * 1000000
      ∧ v * 1000000 < ((⌊|v| * 1000000⌋.toNat : ℕ) : ℚ) + 1 := by
  rw [abs_of_nonneg h0]
  have hs : (0 : ℚ) ≤ v * 1000000 := by positivity
  have hf : 0 ≤ ⌊v * 1000000⌋ := Int.floor_nonneg.mpr hs
  have hc : ((⌊v * 1000000⌋.toNat : ℕ) : ℚ) = ((⌊v * 1000000⌋ : ℤ) : ℚ) := by
    have : ((⌊v * 1000000⌋.toNat : ℕ) : ℤ) = ⌊v * 1000000⌋ := Int.toNat_of_nonneg hf
    exact_mod_cast this
  rw [hc]
  exact ⟨Int.floor_le _, Int.lt_floor_add_one _⟩

theorem round6_lt (v : ℚ) (h0 : 0 ≤ v) (h : 2000000 * v < 1999999) :
    round6 v < 1000000 := by
  obtain ⟨hle, hlt⟩ := round6_floor v h0
  have hq : ((⌊|v| * 1000000⌋.toNat : ℕ) : ℚ) < 1000000 := by linarith
  have hq2 : ⌊|v| * 1000000⌋.toNat < 1000000 := by exact_mod_cast hq
  unfold round6
  simp only []
  split
  · rename_i hcond
    rw [abs_of_nonneg h0] at hcond
    by_contra hge
    have hq3 : ⌊|v| * 1000000⌋.toNat = 999999 := by omega
    rw [← abs_of_nonneg h0] at hcond
    rw [hq3] at hcond
    rw [abs_of_nonneg h0] at hcond
    rcases hcond with hc | ⟨hc, -⟩
    · have : ((999999 : ℕ) : ℚ) = 999999 := by norm_num
      rw [this] at hc
      linarith
    · have : ((999999 : ℕ) : ℚ) = 999999 := by norm_num
      rw [this] at hc
      linarith
  · exact hq2

theorem round6_eq (v : ℚ) (h0 : 0 ≤ v) (h1 : v ≤ 1) (h : 1999999 ≤ 2000000 * v) :
    round6 v = 1000000 := by
  obtain ⟨hle, hlt⟩ := round6_floor v h0
  have hq : (999998 : ℚ) < ((⌊|v| * 1000000⌋.toNat : ℕ) : ℚ) := by linarith
  have hq' : ((⌊|v| * 1000000⌋.toNat : ℕ) : ℚ) ≤ 1000000 := by linarith
  have hq2 : 999998 < ⌊|v| * 1000000⌋.toNat := by exact_mod_cast hq
  have hq3 : ⌊|v| * 1000000⌋.toNat ≤ 1000000 := by exact_mod_cast hq'
  have hcases : ⌊|v| * 1000000⌋.toNat = 999999 ∨ ⌊|v| * 1000000⌋.toNat = 1000000 := by omega
  unfold round6
  simp only []
  rcases hcases with hc | hc
  · rw [hc]
    have e : ((999999 : ℕ) : ℚ) = 999999 := by norm_num
    rw [if_pos]
    rw [abs_of_nonneg h0, e]
    by_cases hhalf : v * 1000000 - 999999 = 1 / 2
    · exact Or.inr ⟨hhalf, by decide⟩
    · left
      have : (1 : ℚ) / 2 ≤ v * 1000000 - 999999 := by linarith
      exact lt_of_le_of_ne this (fun e2 => hhalf e2.symm)
  · rw [hc]
    have e : ((1000000 : ℕ) : ℚ) = 1000000 := by norm_num
    rw [if_neg]
    rw [abs_of_nonneg h0, e]
    rintro (h2 | ⟨h2, -⟩) <;> linarith

theorem stoi_format_fixed6_unit (v : ℚ) (h0 : 0 ≤ v) (h1 : v ≤ 1) :
    stoi (format_fixed6 v) = .ok (unit_part v : Int) := by
  have hneg : ¬ v < 0 := not_lt.mpr h0
  by_cases h : 1999999 ≤ 2000000 * v
  · have hr := round6_eq v h0 h1 h
    simp only [format_fixed6, if_neg hneg, hr, unit_part, if_pos h]
    exact stoi_one_point _
  · have hr := round6_lt v h0 (not_le.mp h)
    have hz : round6 v / 1000000 = 0 := Nat.div_eq_of_lt hr
    simp only [format_fixed6, if_neg hneg, hz, unit_part, if_neg h]
    exact stoi_zero_point _

theorem to_u32_unit_part (v : ℚ) : to_u32 (unit_part v : Int) = unit_part v := by
  unfold unit_part
  split <;> rfl

/-- What `load_csv` returns, in closed form, for a file with fewer than `2^64`
lines of at most `2^64` cells each. -/
theorem load_csv_closed_of_counts (fs : String → Option (List Char)) (filename : String)
    (file : List Char) (hf : fs filename = some file)
    (hcount : ((getlines '\n' file).drop 1).length < SIZE_MOD)
    (hcells : ∀ line ∈ (getlines '\n' file).drop 1, (getlines ',' line).length ≤ SIZE_MOD) :
    (∀ e, parse_rows ((getlines '\n' file).drop 1) = .error e →
        load_csv fs filename = .error e)
      ∧ (∀ rows, parse_rows ((getlines '\n' file).drop 1) = .ok rows →
          ∃ d, load_csv fs filename
            = .ok { labels := rows.filterMap (fun row => row.1),
                    images := rows.map (fun row => row.2),
                    dim := d, n := ((getlines '\n' file).drop 1).length }) := by
  obtain ⟨herr, hok⟩ := read_lines_closed ((getlines '\n' file).drop 1) 0 none [] []
    (by decide) hcells
  refine ⟨fun e h => ?_, fun rows h => ?_⟩
  · simp only [load_csv, hf]
    exact herr e h
  · obtain ⟨d, hd⟩ := hok rows h
    refine ⟨d, ?_⟩
    simp only [load_csv, hf, hd, Nat.zero_add, Nat.mod_eq_of_lt hcount, List.nil_append]

theorem row_values_mem (ds : MnistDataset) (idx : Nat) :
    ∀ v ∈ row_values ds idx, v ∈ ds.images := fun _ hv =>
  List.mem_of_mem_drop (List.mem_of_mem_take hv)

/-- The row `load_csv` reads from the data line of image `idx` of a well-formed
dataset with values in `[0, 1]`. -/
theorem parse_row_exported (ds : MnistDataset) (idx : Nat)
    (hunit : ∀ v ∈ ds.images, 0 ≤ v ∧ v ≤ 1) :
    parse_row ([','].intercalate (row_fields ds idx))
      = .ok (some (one_hot num_classes ((ds.labels.getD idx 0).val : Int)),
          (row_values ds idx).map unit_part) := by
  have hplain : ∀ f ∈ row_fields ds idx, f ≠ [] ∧ ',' ∉ f := fun f hf =>
    ⟨(row_fields_plain ds idx f hf).1, (row_fields_plain ds idx f hf).2.1⟩
  have hcells : stoi_all ((row_values ds idx).map format_fixed6)
      = .ok ((row_values ds idx).map fun v => (unit_part v : Int)) :=
    stoi_all_map format_fixed6 (fun v => (unit_part v : Int)) _ (fun v hv =>
      stoi_format_fixed6_unit v (hunit v (row_values_mem ds idx v hv)).1
        (hunit v (row_values_mem ds idx v hv)).2)
  unfold parse_row
  rw [getlines_intercalate _ hplain]
  simp only [row_fields, stoi_put_nat_byte, hcells, to_one_hot_replicate, List.map_map,
    Function.comp_def, to_u32_unit_part]

theorem filterMap_some_fun {α β : Type} (f : α → β) (l : List α) :
    l.filterMap (fun x => some (f x)) = l.map f := by
  induction l with
  | nil => rfl
  | cons a l ih => simp [List.filterMap_cons, ih]

/-- Reading back with `load_csv` the text `export_csv` writes for a well-formed
dataset with values in `[0, 1]`: one row per exported image, every pixel reduced
to the integer part of its text. -/
theorem csv_round_trip (ds : MnistDataset) (max_rows : Nat) (hwf : ds.well_formed)
    (hunit : ∀ v ∈ ds.images, 0 ≤ v ∧ v ≤ 1)
    (cfs : String → Option (List Char)) (path : String)
    (hcfs : cfs path = some (csv_text (header_fields ds
      :: (List.range (export_count ds max_rows)).map (row_fields ds)))) :
    ∃ d, load_csv cfs path
      = .ok { labels := (List.range (export_count ds max_rows)).map fun idx =>
                one_hot num_classes ((ds.labels.getD idx 0).val : Int),
              images := (List.range (export_count ds max_rows)).map fun idx =>
                (row_values ds idx).map unit_part,
              dim := d, n := export_count ds max_rows } := by
  have hN := export_count_le ds max_rows
  have hlines : (getlines '\n' (csv_text (header_fields ds
      :: (List.range (export_count ds max_rows)).map (row_fields ds)))).drop 1
      = (List.range (export_count ds max_rows)).map fun idx =>
          [','].intercalate (row_fields ds idx) := by
    rw [getlines_csv_text]
    · simp [List.map_map, Function.comp_def]
    · intro fields hfields f hf
      rcases List.mem_cons.mp hfields with rfl | hrow
      · exact (header_fields_plain ds f hf).2.2
      · obtain ⟨idx, -, rfl⟩ := List.mem_map.mp hrow
        exact (row_fields_plain ds idx f hf).2.2
  have hparse := parse_rows_map (fun idx => [','].intercalate (row_fields ds idx))
    (fun idx => (some (one_hot num_classes ((ds.labels.getD idx 0).val : Int)),
      (row_values ds idx).map unit_part))
    (List.range (export_count ds max_rows)) (fun idx _ => parse_row_exported ds idx hunit)
  obtain ⟨-, hok⟩ := load_csv_closed_of_counts cfs path _ hcfs
    (by rw [hlines]; simp only [List.length_map, List.length_range]; have := hwf.2.2.2.2; omega)
    (by
      rw [hlines]
      intro line hline
      obtain ⟨idx, hidx, rfl⟩ := List.mem_map.mp hline
      have hplain : ∀ f ∈ row_fields ds idx, f ≠ [] ∧ ',' ∉ f := fun f hf =>
        ⟨(row_fields_plain ds idx f hf).1, (row_fields_plain ds idx f hf).2.1⟩
      rw [getlines_intercalate _ hplain]
      have hi : idx < ds.num_images := by
        have := List.mem_range.mp hidx
        omega
      simp only [row_fields, List.length_cons, List.length_map,
        row_values_length ds idx hwf hi]
      have := hwf.2.2.2.1
      omega)
  rw [hlines] at hok
  obtain ⟨d, hd⟩ := hok _ hparse
  refine ⟨d, ?_⟩
  rw [hd]
  simp only [List.filterMap_map, Function.comp_def, List.map_map, filterMap_some_fun,
    List.length_map, List.length_range]

/-! ## Export, then read back -/

theorem load_mnist_well_formed (alloc : Nat → Bool)
    (fs : String → Option (List Byte)) (ip lp : String)
    (nz : Bool) (ds : MnistDataset) (h : load_mnist alloc fs ip lp nz = .ok ds)
    (hfit : ds.num_images * ds.rows * ds.cols < SIZE_MOD) : ds.well_formed := by
  have hlen := load_mnist_images_length_of_fit alloc fs ip lp nz ds h hfit
  obtain ⟨hlab, -, -⟩ : ds.labels.length = ds.num_images ∧ True ∧ True := by
    obtain ⟨img, lbl, n, r, c, -, -, -, -, -, -, -, -, -, gle, hds⟩ :=
      load_mnist_ok_inv alloc fs ip lp nz ds h
    subst hds
    simp only [List.length_take, and_self, and_true]
    omega
  obtain ⟨img, lbl, n, r, c, -, -, -, h1, h2, h3, -, -, -, -, hds⟩ :=
    load_mnist_ok_inv alloc fs ip lp nz ds h
  have b1 := (header_field_bound img 1 n h1).1
  have b2 := (header_field_bound img 2 r h2).1
  have b3 := (header_field_bound img 3 c h3).1
  subst hds
  refine ⟨hlen, hlab, by omega, ?_, ?_⟩
  · show r * c < SIZE_MOD
    have : r * c ≤ (2 ^ 32 - 1) * (2 ^ 32 - 1) := Nat.mul_le_mul (by omega) (by omega)
    have e : (2 ^ 32 - 1) * (2 ^ 32 - 1) < SIZE_MOD := by decide
    omega
  · show n < SIZE_MOD
    have e : 2 ^ 32 < SIZE_MOD := by decide
    omega

theorem load_mnist_unit_values (alloc : Nat → Bool)
    (fs : String → Option (List Byte)) (ip lp : String)
    (ds : MnistDataset) (h : load_mnist alloc fs ip lp true = .ok ds) :
    ∀ v ∈ ds.images, 0 ≤ v ∧ v ≤ 1 := by
  obtain ⟨img, lbl, n, r, c, -, -, -, -, -, -, -, -, -, -, hds⟩ :=
    load_mnist_ok_inv alloc fs ip lp true ds h
  subst hds
  intro v hv
  simp only [List.mem_map] at hv
  obtain ⟨b, -, rfl⟩ := hv
  exact (convert_pixel_bounds true b).1 rfl

theorem unit_part_convert_pixel (b : Byte) :
    unit_part (convert_pixel true b) = if b.val = 255 then 1 else 0 := by
  have hb : b.val ≤ 255 := by omega
  unfold unit_part convert_pixel
  simp only [if_true]
  by_cases h : b.val = 255
  · rw [if_pos h, if_pos]
    rw [h]
    norm_num
  · rw [if_neg h, if_neg]
    have h2 : b.val ≤ 254 := by omega
    have h3 : (b.val : ℚ) ≤ 254 := by exact_mod_cast h2
    intro hc
    linarith

theorem round6_exact (v : ℚ) (m : ℕ) (h0 : 0 ≤ v) (h : v * 1000000 = m) : round6 v = m := by
  unfold round6
  simp only [abs_of_nonneg h0, h, Int.floor_natCast, Int.toNat_ofNat, sub_self]
  rw [if_neg]
  rintro (h2 | ⟨h2, -⟩)
  · norm_num at h2
  · norm_num at h2

theorem format_fixed6_exact (v : ℚ) (m : ℕ) (h0 : 0 ≤ v) (h : v * 1000000 = m) :
    format_fixed6 v = put_nat (m / 1000000) ++ '.'
      :: (List.replicate (6 - (put_nat (m % 1000000)).length) '0'
          ++ put_nat (m % 1000000)) := by
  simp only [format_fixed6, if_neg (not_lt.mpr h0), round6_exact v m h0 h, List.nil_append]

theorem convert_pixel_scaled (b : Byte) (n m : ℕ) (hb : b.val = n)
    (h : n * 1000000 = m * 255) : convert_pixel true b * 1000000 = m := by
  simp only [convert_pixel, if_true, hb]
  have h2 : (n : ℚ) * 1000000 = (m : ℚ) * 255 := by exact_mod_cast h
  field_simp
  linarith

theorem export_small_ds_norm :
    export_csv (fun _ => true) small_ds_norm "out.csv" 0 = .ok (some small_csv_text) := by
  have hwf : small_ds_norm.well_formed := ⟨rfl, rfl, by decide, by decide, by decide⟩
  rw [export_csv_eq (fun _ => true) small_ds_norm "out.csv" 0 rfl hwf]
  have e0 : format_fixed6 (convert_pixel true 255) = "1.000000".toList := by
    rw [format_fixed6_exact _ 1000000 ((convert_pixel_bounds true 255).1 rfl).1
      (convert_pixel_scaled _ _ _ rfl (by decide))]
    rfl
  have e1 : format_fixed6 (convert_pixel true 51) = "0.200000".toList := by
    rw [format_fixed6_exact _ 200000 ((convert_pixel_bounds true 51).1 rfl).1
      (convert_pixel_scaled _ _ _ rfl (by decide))]
    rfl
  have e2 : format_fixed6 (convert_pixel true 0) = "0.000000".toList := by
    rw [format_fixed6_exact _ 0 ((convert_pixel_bounds true 0).1 rfl).1
      (convert_pixel_scaled _ _ _ rfl (by decide))]
    rfl
  have e3 : format_fixed6 (convert_pixel true 102) = "0.400000".toList := by
    rw [format_fixed6_exact _ 400000 ((convert_pixel_bounds true 102).1 rfl).1
      (convert_pixel_scaled _ _ _ rfl (by decide))]
    rfl
  have hrows : (List.range (export_count small_ds_norm 0)).map (row_fields small_ds_norm)
      = [[put_nat 7, format_fixed6 (convert_pixel true 255),
            format_fixed6 (convert_pixel true 51)],
          [put_nat 200, format_fixed6 (convert_pixel true 0),
            format_fixed6 (convert_pixel true 102)]] := rfl
  rw [hrows, e0, e1, e2, e3]
  rfl

/-- C14 (counterexample): the archive `small_fs` (pixel bytes 255, 51, 0, 102)
loaded with normalisation, exported and read back: the exported text carries
`0.200000` for the byte 51, `load_csv` reads it as 0, and the re-parsed rows are
`[1, 0]` and `[0, 0]`; the normalised value 51/255 is missed by more than
0.5e-6. -/
theorem csv_round_trip_drops_fraction :
    load_mnist enough_memory small_fs "images" "labels" true = .ok small_ds_norm
      ∧ export_csv (fun _ => true) small_ds_norm "out.csv" 0 = .ok (some small_csv_text)
      ∧ small_csv_fs "out.csv" = some small_csv_text
      ∧ load_csv small_csv_fs "out.csv"
          = .ok { labels := [[0, 0, 0, 0, 0, 0, 0, 1, 0, 0], [0, 0, 0, 0, 0, 0, 0, 0, 0, 0]],
                  images := [[1, 0], [0, 0]], dim := some 2, n := 2 }
      ∧ small_ds_norm.images[1]? = some (convert_pixel true 51)
      ∧ convert_pixel true 51 = 51 / 255
      ∧ (1 : ℚ) / 2000000 < |((0 : ℕ) : ℚ) - 51 / 255| := by
  refine ⟨load_mnist_small_fs true, export_small_ds_norm, rfl, rfl, rfl, ?_, ?_⟩
  · show (((51 : ℕ) : ℚ)) / 255 = 51 / 255
    norm_num
  · rw [abs_sub_comm, abs_of_nonneg (by norm_num)]
    norm_num

/-- C14 (amended): for a dataset loaded with normalisation whose geometry fits
`size_t`, `export_csv` to a writable path succeeds, and `load_csv` on the text
written returns one row per exported image (`n` counts them, with one label
vector each); row `idx` has `rows * cols` pixels, and pixel `k` is the integer
part of the text of `b / 255`, with `b` the byte at offset
`16 + idx*rows*cols + k` of the image file: 1 when `b = 255` and 0 otherwise. -/
theorem export_load_csv_round_trip (alloc : Nat → Bool)
    (fs : String → Option (List Byte)) (ip lp : String)
    (ds : MnistDataset) (img : List Byte)
    (h : load_mnist alloc fs ip lp true = .ok ds) (hfi : fs ip = some img)
    (hfit : ds.num_images * ds.rows * ds.cols < SIZE_MOD)
    (writable : String → Bool) (out_path : String) (max_rows : Nat)
    (hw : writable out_path = true) :
    ∃ text, export_csv writable ds out_path max_rows = .ok (some text)
      ∧ ∀ (cfs : String → Option (List Char)), cfs out_path = some text →
          ∃ out : Dataset, load_csv cfs out_path = .ok out
            ∧ out.n = (if max_rows = 0 then ds.num_images else min ds.num_images max_rows)
            ∧ out.images.length = out.n ∧ out.labels.length = out.n
            ∧ ∀ idx k, idx < out.n → k < ds.rows * ds.cols →
                ∃ (b : Byte) (row : List Nat),
                  img[16 + (idx * ds.rows * ds.cols + k)]? = some b
                    ∧ ds.images[idx * ds.rows * ds.cols + k]? = some ((b.val : ℚ) / 255)
                    ∧ out.images[idx]? = some row
                    ∧ row.length = ds.rows * ds.cols
                    ∧ row[k]? = some (if b.val = 255 then 1 else 0) := by
  have hwf := load_mnist_well_formed alloc fs ip lp true ds h hfit
  have hunit := load_mnist_unit_values alloc fs ip lp ds h
  have hN := export_count_le ds max_rows
  have hcount : export_count ds max_rows
      = (if max_rows = 0 then ds.num_images else min ds.num_images max_rows) := by
    unfold export_count
    by_cases hm : max_rows = 0 <;> simp [hm]
  refine ⟨_, export_csv_eq writable ds out_path max_rows hw hwf, fun cfs hcfs => ?_⟩
  obtain ⟨d, hd⟩ := csv_round_trip ds max_rows hwf hunit cfs out_path hcfs
  refine ⟨_, hd, hcount, by simp, by simp, fun idx k hidx hk => ?_⟩
  simp only at hidx
  have hi : idx < ds.num_images := by omega
  obtain ⟨-, hle, hview⟩ :=
    load_mnist_image_view_of_fit alloc fs ip lp true ds img h hfi hfit idx hi
  have hin : idx * ds.rows * ds.cols + k < ds.images.length := by omega
  obtain ⟨b, hb, hv⟩ := load_mnist_images_getElem alloc fs ip lp true ds img h hfi _ hin
  have hconv : convert_pixel true b = (b.val : ℚ) / 255 := by simp [convert_pixel]
  have hrow : (row_values ds idx)[k]? = some (convert_pixel true b) := by
    simp only [row_values, List.getElem?_take_of_lt hk, List.getElem?_drop]
    exact hv
  refine ⟨b, (row_values ds idx).map unit_part, hb, hconv ▸ hv, ?_, ?_, ?_⟩
  · simp only [List.getElem?_map, List.getElem?_range hidx, Option.map_some']
  · rw [List.length_map, row_values_length ds idx hwf hi]
  · rw [List.getElem?_map, hrow, Option.map_some', unit_part_convert_pixel]

/-- C14, instance: the archive `small_fs`, exported whole and read back from
`out.csv`: two rows, two label vectors, `n = 2`. -/
theorem export_load_csv_round_trip_witness :
    load_mnist enough_memory small_fs "images" "labels" true = .ok small_ds_norm
      ∧ export_csv (fun _ => true) small_ds_norm "out.csv" 0 = .ok (some small_csv_text)
      ∧ ∃ out : Dataset, load_csv small_csv_fs "out.csv" = .ok out ∧ out.n = 2
          ∧ out.images.length = out.n ∧ out.labels.length = out.n := by
  obtain ⟨text, h1, h2⟩ := export_load_csv_round_trip enough_memory small_fs "images" "labels"
    small_ds_norm small_img (load_mnist_small_fs true) rfl (by decide) (fun _ => true)
    "out.csv" 0 rfl
  have ht : text = small_csv_text := by
    rw [export_small_ds_norm] at h1
    injection h1 with h1
    injection h1 with h1
    exact h1.symm
  subst ht
  obtain ⟨out, g1, g2, g3, g4, -⟩ := h2 small_csv_fs rfl
  exact ⟨load_mnist_small_fs true, h1, out, g1, g2, g3, g4⟩

end MNISTLoader
